import Mathlib

/-!
Verification of the FlowBeat sequencer's transport/scheduling core.

This file gives a shallow embedding of the scheduling-relevant parts of the
source (`src/App.tsx`, `src/services/exportService.ts`, the SongMode grid
component and the channel constructors) and proves the spec's claims about
them.

Modelling conventions:
* JavaScript numbers that hold musical time (seconds, fractional steps,
  swing amounts) are modelled as `Rat`.  All values that arise here are
  small dyadic rationals, on which JS double arithmetic is exact, so the
  rational model coincides with the float computation of the source.
* A pattern length divided by 16 (`length / 16` in the source) is only ever
  used in comparisons of the form `bar < start + length / 16`; we clear the
  denominator and compare `16 * bar < 16 * start + length` over `Nat`,
  which is the same comparison (division by 16 is exact on doubles).
* The playlist is a `Map` keyed by the composite string `"track:bar"`,
  where both components are written and re-parsed with `split(':')`; we
  model the key directly as the pair `(track, bar) : Nat × Nat` and the map
  as an association list in insertion order, matching JS `Map` iteration.
* Sampler availability: the live path triggers only channels whose sample
  is present in the `audioNodes` map, and `loadSampler` skips samples with
  an empty `url`; the export path instantiates samplers exactly for the
  samples with a non-empty `url`.  Assuming loads succeed (loading is
  asynchronous I/O outside this model), both paths gate triggering on
  `sample.url ≠ ""`, which is how availability is modelled here.
-/

set_option maxHeartbeats 1000000

namespace FlowBeat

/-! ## Data model (from `src/types.ts`) -/

structure Sample where
  name : String
  url : String
deriving DecidableEq

structure Note where
  id : String
  pitch : Int
  start : Rat
  duration : Rat
  velocity : Rat
deriving DecidableEq

structure EQState where
  low : Rat
  mid : Rat
  high : Rat
  lowFrequency : Rat
  highFrequency : Rat
deriving DecidableEq

inductive EffectType
  | Reverb | Delay | Chorus | Distortion | Filter | Compressor
deriving DecidableEq

/-- Effect slot state.  The per-kind parameter records
(`ReverbParams`, `DelayParams`, …) are flat records of numbers and small
enumerations; no claim inspects them, so they are carried uniformly as a
named field list. -/
structure EffectState where
  id : String
  kind : EffectType
  enabled : Bool
  params : List (String × Rat)
deriving DecidableEq

structure ChannelState where
  id : String
  name : String
  sample : Sample
  steps : List Nat
  notes : List Note
  volume : Rat
  pan : Rat
  cutItself : Bool
  eq : EQState
  effects : List (Option EffectState)
  isAudioClipChannel : Bool
  isMuted : Bool
  isSoloed : Bool
deriving DecidableEq

structure Pattern where
  id : String
  name : String
  channels : List ChannelState
  length : Nat
deriving DecidableEq

/-- `Playlist = Map<string, string>` with keys `"track:bar"`; modelled as an
association list from `(track, bar)` pairs to pattern ids, in insertion
order. -/
abbrev PlaylistL := List ((Nat × Nat) × String)

inductive QuantizeSnapValue
  | half | quarter | eighth | sixteenth | thirtySecond | sixtyFourth | none
deriving DecidableEq

/-! ## Time model -/

/-- `(60 / bpm) / 4`, the duration of one 16th-note step in seconds
(`secondsPer16th` in the source). -/
def secondsPer16th (bpm : Rat) : Rat := 60 / bpm / 4

/-- `(60 / bpm) * 4`, the duration of one bar in seconds
(`secondsPerBar` in the source). -/
def secondsPerBar (bpm : Rat) : Rat := (60 / bpm) * 4

/-! ## Quantization (`src/App.tsx`, `getSnapStepFromQuantizeValue` and
`quantizeNotes`) -/

def getSnapStepFromQuantizeValue : QuantizeSnapValue → Rat
  | .half => 8
  | .quarter => 4
  | .eighth => 2
  | .sixteenth => 1
  | .thirtySecond => 1/2
  | .sixtyFourth => 1/4
  | .none => 0

/-- JavaScript `Math.round`: the nearest integer, with ties (`x.5`) rounded
toward positive infinity, i.e. `⌊x + 1/2⌋`. -/
def jsRound (q : Rat) : Int := ⌊q + 1/2⌋

def quantizeNotes (notes : List Note) (snapValue : QuantizeSnapValue) : List Note :=
  let snapStep := getSnapStepFromQuantizeValue snapValue
  if snapStep = 0 then notes
  else notes.map fun note =>
    { note with
      start := (jsRound (note.start / snapStep) : Rat) * snapStep
      duration := max snapStep ((jsRound (note.duration / snapStep) : Rat) * snapStep) }

/-! ## Step toggling (`src/App.tsx`, `handleStepToggle` / `handleStepSubdivide`) -/

/-- The step-value successor of `handleStepToggle`: a `0` step becomes `1`,
then the roll cycle `1 → 2 → 4 → 3 → 1` (the `switch` with a `default` of
`1`). -/
def nextStepValue (v : Nat) : Nat :=
  if v = 0 then 1
  else match v with
    | 1 => 2
    | 2 => 4
    | 4 => 3
    | 3 => 1
    | _ => 1

/-- `handleStepToggle` on the pattern store: in the active pattern, for the
channel with the given id, replace `steps[stepIndex]` by its successor
value.  (The source writes through a copied array; an out-of-range index
would create a sparse JS slot, which never happens through the UI — the
model's `List.set` is a no-op there and all theorems stay in bounds.) -/
def handleStepToggle (ps : List Pattern) (activePatternId channelId : String)
    (stepIndex : Nat) : List Pattern :=
  ps.map fun p =>
    if p.id ≠ activePatternId then p
    else
      { p with
        channels := p.channels.map fun ch =>
          if ch.id ≠ channelId then ch
          else { ch with steps := ch.steps.set stepIndex (nextStepValue (ch.steps.getD stepIndex 0)) } }

/-- `handleStepSubdivide` (bound to right-click): forces the step to `0`. -/
def handleStepSubdivide (ps : List Pattern) (activePatternId channelId : String)
    (stepIndex : Nat) : List Pattern :=
  ps.map fun p =>
    if p.id ≠ activePatternId then p
    else
      { p with
        channels := p.channels.map fun ch =>
          if ch.id ≠ channelId then ch
          else { ch with steps := ch.steps.set stepIndex 0 } }

/-! ## Pattern length (`src/App.tsx`, `handlePatternLengthChange`) -/

def handlePatternLengthChange (ps : List Pattern) (activePatternId : String)
    (newLength : Nat) : List Pattern :=
  ps.map fun p =>
    if p.id ≠ activePatternId then p
    else
      { p with
        length := newLength
        channels := p.channels.map fun ch =>
          if ch.isAudioClipChannel then ch
          else if ch.steps.length < newLength then
            { ch with steps := ch.steps ++ List.replicate (newLength - ch.steps.length) 0 }
          else ch }

/-! ## Playlist resolver (`src/App.tsx`, `songSequenceCallback`) -/

/-- `Map.get` on the playlist: first entry with the given `(track, bar)`
key (keys are unique in a JS `Map`). -/
def plLookup (pl : PlaylistL) (track bar : Nat) : Option String :=
  (pl.find? fun e => e.1 = (track, bar)).map (·.2)

/-- `patterns.find(p => p.id === patternId)`. -/
def findPattern (pats : List Pattern) (pid : String) : Option Pattern :=
  pats.find? fun p => p.id = pid

/-- One probe of the backward scan: the playlist entry at `(track, sb)`,
if it exists, names an existing pattern, and that pattern's bar range
still covers `currentBar` (`currentBar < sb + length / 16`, compared here
as `16 * currentBar < 16 * sb + length`). -/
def checkEntry (pl : PlaylistL) (pats : List Pattern) (track currentBar sb : Nat) :
    Option (Pattern × Nat) :=
  match plLookup pl track sb with
  | Option.none => Option.none
  | Option.some pid =>
    match findPattern pats pid with
    | Option.none => Option.none
    | Option.some p =>
      if 16 * currentBar < 16 * sb + p.length then Option.some (p, sb) else Option.none

/-- The inner `for (searchBar = currentBar; searchBar >= 0; searchBar--)`
loop: scan start bars backward from `sb` to `0`, returning the first
covering entry. -/
def scanBack (pl : PlaylistL) (pats : List Pattern) (track currentBar : Nat) :
    Nat → Option (Pattern × Nat)
  | 0 => checkEntry pl pats track currentBar 0
  | sb + 1 =>
    match checkEntry pl pats track currentBar (sb + 1) with
    | Option.some r => Option.some r
    | Option.none => scanBack pl pats track currentBar sb

def resolveTrack (pl : PlaylistL) (pats : List Pattern) (currentBar track : Nat) :
    Option (Pattern × Nat) :=
  scanBack pl pats track currentBar currentBar

/-- The outer `for (track = 0; track < 32; track++)` loop: the first track
(lowest index) whose backward scan finds a match wins.  Returns the
resolved pattern, its start bar and its track. -/
def scanTracksFrom (pl : PlaylistL) (pats : List Pattern) (currentBar : Nat) :
    Nat → Nat → Option (Pattern × Nat × Nat)
  | _, 0 => Option.none
  | t, r + 1 =>
    match resolveTrack pl pats currentBar t with
    | Option.some (p, sb) => Option.some (p, sb, t)
    | Option.none => scanTracksFrom pl pats currentBar (t + 1) r

def resolveActivePattern (pl : PlaylistL) (pats : List Pattern) (currentBar : Nat) :
    Option (Pattern × Nat × Nat) :=
  scanTracksFrom pl pats currentBar 0 32

/-- A playlist entry at `(track, sb)` that matches at `currentBar`: it maps
to an existing pattern `p` whose bar range `[sb, sb + p.length/16)`
contains `currentBar`. -/
def ActiveMatch (pl : PlaylistL) (pats : List Pattern) (currentBar track sb : Nat)
    (p : Pattern) : Prop :=
  ∃ pid, plLookup pl track sb = Option.some pid ∧ findPattern pats pid = Option.some p ∧
    16 * currentBar < 16 * sb + p.length

/-! ## Playlist placement (`SongMode.handleGridClick`) -/

/-- The deletion test of `handleGridClick`: an existing entry is removed
when it lies on the clicked track and its bar range
`[entryBar, entryBar + entryLength/16)` intersects the new range
`[bar, bar + brushLength/16)` (`newStart < existingEnd && newEnd >
existingStart`).  Entries whose pattern id no longer exists are skipped
(`continue`). -/
def overlapsNew (pats : List Pattern) (brush : Pattern) (track bar : Nat)
    (e : (Nat × Nat) × String) : Bool :=
  e.1.1 = track &&
    match findPattern pats e.2 with
    | Option.none => false
    | Option.some p =>
      decide (16 * bar < 16 * e.1.2 + p.length) && decide (16 * e.1.2 < 16 * bar + brush.length)

/-- `handleGridClick(track, bar)`: look up the brush pattern, delete every
overlapping entry on the same track, then `Map.set` the new key (which
replaces in place if the key somehow survived, and appends otherwise). -/
def handleGridClick (pl : PlaylistL) (pats : List Pattern) (brushPatternId : String)
    (track bar : Nat) : PlaylistL :=
  match findPattern pats brushPatternId with
  | Option.none => pl
  | Option.some brush =>
    let pruned := pl.filter fun e => !(overlapsNew pats brush track bar e)
    if pruned.any (fun e => e.1 = (track, bar)) then
      pruned.map fun e => if e.1 = (track, bar) then ((track, bar), brushPatternId) else e
    else pruned ++ [((track, bar), brushPatternId)]

/-- Entry `(sb ↦ p)` covers integer bar `x` (the range
`[sb, sb + p.length/16)` contains `x`, compared with cleared
denominators). -/
def coversBar (sb len x : Nat) : Prop := sb ≤ x ∧ 16 * x < 16 * sb + len

/-- The playlist invariant of the spec: no two placements on one track
cover a common bar (placements whose pattern id is dangling have no bar
range). -/
def PlaylistNoOverlap (pats : List Pattern) (pl : PlaylistL) : Prop :=
  ∀ e1 ∈ pl, ∀ e2 ∈ pl, e1 ≠ e2 → e1.1.1 = e2.1.1 →
    ∀ p1 p2, findPattern pats e1.2 = Option.some p1 → findPattern pats e2.2 = Option.some p2 →
      ∀ x : Nat, ¬(coversBar e1.1.2 p1.length x ∧ coversBar e2.1.2 p2.length x)

/-! ## Undo history (`src/App.tsx`, `useHistory`) -/

structure History (α : Type) where
  past : List α
  present : α
  future : List α
deriving DecidableEq

/-- `useHistory`'s initial state: empty `past` and `future`. -/
def mkHistory {α : Type} (a : α) : History α := ⟨[], a, []⟩

/-- `set(newPresent, fromHistory)`: a value structurally equal to the
current present (the source compares `JSON.stringify` images, which on
these plain data values is structural equality) leaves the state
untouched; otherwise the old present is pushed and `future` is cleared
(or, with `fromHistory`, only `present` is replaced). -/
def histSet {α : Type} [DecidableEq α] (h : History α) (newPresent : α)
    (fromHistory : Bool) : History α :=
  if newPresent = h.present then h
  else if fromHistory then { h with present := newPresent }
  else { past := h.past ++ [h.present], present := newPresent, future := [] }

/-- `undo`: no-op when `past` is empty; otherwise the last `past` element
becomes present and the present is pushed onto `future`. -/
def histUndo {α : Type} (h : History α) : History α :=
  match h.past.getLast? with
  | Option.none => h
  | Option.some x => { past := h.past.dropLast, present := x, future := h.present :: h.future }

/-- `redo`: no-op when `future` is empty; otherwise the first `future`
element becomes present and the present is appended to `past`. -/
def histRedo {α : Type} (h : History α) : History α :=
  match h.future with
  | [] => h
  | x :: rest => { past := h.past ++ [h.present], present := x, future := rest }

/-- A sequence of pattern-store mutations applied through the history
wrapper (each mutation is a function of the current present, as in
`setPatterns(current => …)`). -/
def applyMutations {α : Type} [DecidableEq α] (h : History α) (fs : List (α → α)) : History α :=
  fs.foldl (fun h f => histSet h (f h.present) false) h

/-! ## Mute/solo and cross-pattern channel edits (`src/App.tsx`,
`handleChannelMuteSoloChange`, `handleChannelChange`, `handleAddChannel`) -/

inductive MuteSoloKind
  | mute | solo
deriving DecidableEq

/-- The new `(isMuted, isSoloed)` pair computed by
`handleChannelMuteSoloChange` from the channel's current flags. -/
def muteSoloFlags (ch : ChannelState) : MuteSoloKind → Bool × Bool
  | .mute =>
    let m := !ch.isMuted
    (m, if m then false else ch.isSoloed)
  | .solo =>
    let s := !ch.isSoloed
    (if s then false else ch.isMuted, s)

/-- `handleChannelMuteSoloChange`: locate the channel's index in the first
pattern's channel list, compute the new flag pair once, and write it to
the channel at that index in every pattern.  (The source indexes
`currentPatterns[0]`; the pattern store is never empty, and the model
returns the state unchanged on an empty list.) -/
def handleChannelMuteSoloChange (ps : List Pattern) (channelId : String)
    (kind : MuteSoloKind) : List Pattern :=
  match ps with
  | [] => ps
  | p0 :: _ =>
    match p0.channels.findIdx? (fun c => c.id = channelId) with
    | Option.none => ps
    | Option.some idx =>
      match p0.channels[idx]? with
      | Option.none => ps
      | Option.some ch0 =>
        let fl := muteSoloFlags ch0 kind
        ps.map fun p =>
          { p with
            channels := p.channels.mapIdx fun j c =>
              if j ≠ idx then c else { c with isMuted := fl.1, isSoloed := fl.2 } }

/-- A partial channel update (`Partial<ChannelState>`), as passed to
`handleChannelChange`; `id` is never patched by any caller. -/
structure ChannelPatch where
  name : Option String
  sample : Option Sample
  steps : Option (List Nat)
  notes : Option (List Note)
  volume : Option Rat
  pan : Option Rat
  cutItself : Option Bool
  eq : Option EQState
  effects : Option (List (Option EffectState))
  isMuted : Option Bool
  isSoloed : Option Bool
deriving DecidableEq

/-- `{ ...ch, ...newProps }`. -/
def applyPatch (ch : ChannelState) (pr : ChannelPatch) : ChannelState :=
  { ch with
    name := pr.name.getD ch.name
    sample := pr.sample.getD ch.sample
    steps := pr.steps.getD ch.steps
    notes := pr.notes.getD ch.notes
    volume := pr.volume.getD ch.volume
    pan := pr.pan.getD ch.pan
    cutItself := pr.cutItself.getD ch.cutItself
    eq := pr.eq.getD ch.eq
    effects := pr.effects.getD ch.effects
    isMuted := pr.isMuted.getD ch.isMuted
    isSoloed := pr.isSoloed.getD ch.isSoloed }

/-- `handleChannelChange`: locate the channel's index by id in the first
pattern, then merge the partial update into the channel at that index in
every pattern (the audio-node rewiring the source performs alongside is
engine-side and carries no store state). -/
def handleChannelChange (ps : List Pattern) (channelId : String) (pr : ChannelPatch) :
    List Pattern :=
  match ps with
  | [] => ps
  | p0 :: _ =>
    match p0.channels.findIdx? (fun c => c.id = channelId) with
    | Option.none => ps
    | Option.some idx =>
      ps.map fun p =>
        { p with
          channels := p.channels.mapIdx fun j c =>
            if j ≠ idx then c else applyPatch c pr }

/-- `handleAddChannel`: append the freshly created channel to every
pattern's channel list. -/
def handleAddChannel (ps : List Pattern) (newChannel : ChannelState) : List Pattern :=
  ps.map fun p => { p with channels := p.channels ++ [newChannel] }

/-- The mixer-relevant projection of a channel (volume, pan, EQ, effect
slots, mute and solo flags). -/
def mixerOf (ch : ChannelState) : Rat × Rat × EQState × List (Option EffectState) × Bool × Bool :=
  (ch.volume, ch.pan, ch.eq, ch.effects, ch.isMuted, ch.isSoloed)

/-- The channel lists of all patterns are parallel: same length and same
per-index mixer settings. -/
def ChannelsParallel (ps : List Pattern) : Prop :=
  ∀ p1 ∈ ps, ∀ p2 ∈ ps, p1.channels.map mixerOf = p2.channels.map mixerOf

/-! ## Trigger generation (live song mode in `src/App.tsx`, offline song
export in `src/services/exportService.ts`)

A trigger event is the pair of the sample name played and the absolute
trigger time in seconds; a roll step value expands to one trigger per
sub-hit. -/

abbrev Trigger := String × Rat

/-- `stepValue === 3 ? 3 : stepValue` — the number of evenly spaced
sub-hits of a roll value (identical in the live and export paths). -/
def subdivisionsOf (v : Nat) : Nat := if v = 3 then 3 else v

/-- The sub-hit expansion of one non-zero step value: `1` is a single
attack at `base`; otherwise `subdivisionsOf v` attacks spaced
`sp16 / subdivisions` apart (identical in the live and export paths). -/
def subHits (name : String) (base sp16 : Rat) (v : Nat) : List Trigger :=
  if v = 1 then [(name, base)]
  else (List.range (subdivisionsOf v)).map fun k =>
    (name, base + (k : Rat) * (sp16 / (subdivisionsOf v : Rat)))

/-- The swing amount the live transport actually runs with:
`Tone.Transport.swing = swing > 0.01 ? swing : 0` (App.tsx). -/
def liveEffectiveSwing (swing : Rat) : Rat := if swing > 1/100 then swing else 0

/-- The delay the engine adds to a live step: `Tone.Transport.swing` at a
`'16n'` subdivision shifts every odd-indexed 16th step later by
`swing × (sp16 / 2)` and leaves even steps alone (the §4.1/§6 engine
contract). -/
def liveSwingDelay (swing sp16 : Rat) (step : Nat) : Rat :=
  if step % 2 = 1 then liveEffectiveSwing swing * (sp16 / 2) else 0

/-- Absolute trigger time of a base hit at a live 16th step. -/
def liveStepTime (bpm swing : Rat) (step : Nat) : Rat :=
  (step : Rat) * secondsPer16th bpm + liveSwingDelay swing (secondsPer16th bpm) step

/-- Absolute trigger time of a base hit in `exportPatternToWav` /
`renderSongToBuffer`: `stepIndex * secondsPer16th`, plus
`swing * (secondsPer16th / 2)` when `swing > 0` and the (global) step
index is odd. -/
def exportStepTime (bpm swing : Rat) (stepIndex : Nat) : Rat :=
  (stepIndex : Rat) * secondsPer16th bpm +
    (if 0 < swing ∧ stepIndex % 2 = 1 then swing * (secondsPer16th bpm / 2) else 0)

/-- `triggerStep` of the live scheduler: audio-clip channels and channels
with piano-roll notes are skipped, a zero step value is silent, and a
channel without a loaded sampler (no `url`) is a silent no-op. -/
def triggerStepLive (sp16 time : Rat) (stepValue : Nat) (ch : ChannelState) : List Trigger :=
  if ch.isAudioClipChannel then []
  else if !ch.notes.isEmpty then []
  else if stepValue = 0 then []
  else if ch.sample.url = "" then []
  else subHits ch.sample.name time sp16 stepValue

/-- One invocation of `songSequenceCallback` at global step `step`:
resolve the active pattern for the current bar, map the global step to a
local step index (modulo the channel's own step-array length), and
trigger each channel. -/
def liveStepTriggers (pats : List Pattern) (pl : PlaylistL) (bpm swing : Rat)
    (step : Nat) : List Trigger :=
  let sp16 := secondsPer16th bpm
  let currentBar := step / 16
  let stepInBar := step % 16
  match resolveActivePattern pl pats currentBar with
  | Option.none => []
  | Option.some (p, sb, _) =>
    let stepInPattern := (currentBar - sb) * 16 + stepInBar
    p.channels.flatMap fun ch =>
      triggerStepLive sp16 (liveStepTime bpm swing step)
        (ch.steps.getD (stepInPattern % ch.steps.length) 0) ch

/-- The scheduling loop of `renderSongToBuffer`: every playlist entry is
visited; its pattern's steps are laid out from the entry's start bar, each
step at `bar * secondsPerBar + stepIndex * secondsPer16th` plus the swing
delay for odd global step indices.  Channels whose sample has no `url`
get no sampler; audio-clip channels are skipped; the `notes` list is NOT
consulted (unlike the live path). -/
def exportSongTriggers (pats : List Pattern) (pl : PlaylistL) (bpm swing : Rat) :
    List Trigger :=
  let sp16 := secondsPer16th bpm
  let spb := secondsPerBar bpm
  pl.flatMap fun e =>
    match findPattern pats e.2 with
    | Option.none => []
    | Option.some p =>
      p.channels.flatMap fun ch =>
        if ch.isAudioClipChannel then []
        else if ch.sample.url = "" then []
        else (ch.steps.enum).flatMap fun iv =>
          if p.length ≤ iv.1 ∨ iv.2 = 0 then []
          else
            let g := e.1.2 * 16 + iv.1
            let t := (e.1.2 : Rat) * spb + (iv.1 : Rat) * sp16 +
              (if 0 < swing ∧ g % 2 = 1 then swing * (sp16 / 2) else 0)
            subHits ch.sample.name t sp16 iv.2

/-! ## C3: step toggling -/

/-- C3.  Step toggling follows the exact cycle `0→1→2→4→3→1→2→…`: a step
holding `0` goes to `1`, thereafter `1→2`, `2→4`, `4→3`, `3→1`; applied
through `handleStepToggle` the targeted step of the targeted channel of
the active pattern holds exactly the successor of its previous value, and
`handleStepSubdivide` (right-click) forces the step to `0` regardless of
its current value. -/
theorem stepToggle_follows_cycle_and_subdivide_resets :
    (nextStepValue 0 = 1 ∧ nextStepValue 1 = 2 ∧ nextStepValue 2 = 4 ∧
      nextStepValue 4 = 3 ∧ nextStepValue 3 = 1) ∧
    (∀ (ps : List Pattern) (aid cid : String) (i j k : Nat) (p : Pattern) (ch : ChannelState),
      ps[j]? = Option.some p → p.channels[k]? = Option.some ch → p.id = aid → ch.id = cid →
      i < ch.steps.length →
      (((handleStepToggle ps aid cid i)[j]?.bind fun q => q.channels[k]?).map
          fun c => c.steps.getD i 0) = Option.some (nextStepValue (ch.steps.getD i 0))) ∧
    (∀ (ps : List Pattern) (aid cid : String) (i j k : Nat) (p : Pattern) (ch : ChannelState),
      ps[j]? = Option.some p → p.channels[k]? = Option.some ch → p.id = aid → ch.id = cid →
      i < ch.steps.length →
      (((handleStepSubdivide ps aid cid i)[j]?.bind fun q => q.channels[k]?).map
          fun c => c.steps.getD i 0) = Option.some 0) := by
  refine ⟨by decide, ?_, ?_⟩
  · intro ps aid cid i j k p ch hj hk hpid hcid hi
    simp only [handleStepToggle, List.getElem?_map, hj, Option.map_some', hpid, ne_eq,
      not_true_eq_false, if_false, Option.some_bind, List.getElem?_map, hk, hcid,
      Option.map_some']
    simp [List.getD_eq_getElem?_getD, List.getElem?_set_eq_of_lt _ hi]
  · intro ps aid cid i j k p ch hj hk hpid hcid hi
    simp only [handleStepSubdivide, List.getElem?_map, hj, Option.map_some', hpid, ne_eq,
      not_true_eq_false, if_false, Option.some_bind, List.getElem?_map, hk, hcid,
      Option.map_some']
    simp [List.getD_eq_getElem?_getD, List.getElem?_set_eq_of_lt _ hi]

/-! ## C5: quantization -/

lemma jsRound_within_half (q : Rat) : |(jsRound q : Rat) - q| ≤ 1/2 := by
  have h1 : (jsRound q : Rat) ≤ q + 1/2 := Int.floor_le (q + 1/2)
  have h2 : q + 1/2 < (jsRound q : Rat) + 1 := Int.lt_floor_add_one (q + 1/2)
  rw [abs_le]
  constructor <;> linarith

lemma jsRound_nearest_int (q : Rat) (k : Int) :
    |(jsRound q : Rat) - q| ≤ |(k : Rat) - q| := by
  rcases lt_trichotomy k (jsRound q) with hlt | heq | hgt
  · have hk : (k : Rat) ≤ (jsRound q : Rat) - 1 := by
      have h : k ≤ jsRound q - 1 := by omega
      exact_mod_cast h
    have h1 : (jsRound q : Rat) ≤ q + 1/2 := Int.floor_le (q + 1/2)
    have habs : |(k : Rat) - q| ≥ 1/2 := by
      rw [abs_sub_comm, abs_of_nonneg (by linarith)]
      linarith
    linarith [jsRound_within_half q]
  · rw [heq]
  · have hk : (jsRound q : Rat) + 1 ≤ (k : Rat) := by
      have h : jsRound q + 1 ≤ k := by omega
      exact_mod_cast h
    have h2 : q + 1/2 < (jsRound q : Rat) + 1 := Int.lt_floor_add_one (q + 1/2)
    have habs : |(k : Rat) - q| ≥ 1/2 := by
      rw [abs_of_nonneg (by linarith)]
      linarith
    linarith [jsRound_within_half q]

/-- Snapping to the grid `s·ℤ` by `jsRound (x / s) * s` lands on the
nearest multiple of `s`. -/
lemma jsRound_scaled_nearest (x s : Rat) (hs : 0 < s) (k : Int) :
    |(jsRound (x / s) : Rat) * s - x| ≤ |(k : Rat) * s - x| := by
  have hs0 : s ≠ 0 := ne_of_gt hs
  have h1 : (jsRound (x / s) : Rat) * s - x = ((jsRound (x / s) : Rat) - x / s) * s := by
    rw [sub_mul, div_mul_cancel₀ x hs0]
  have h2 : (k : Rat) * s - x = ((k : Rat) - x / s) * s := by
    rw [sub_mul, div_mul_cancel₀ x hs0]
  rw [h1, h2, abs_mul, abs_mul, abs_of_pos hs]
  exact mul_le_mul_of_nonneg_right (jsRound_nearest_int (x / s) k) (le_of_lt hs)

lemma snapStep_pos {snap : QuantizeSnapValue} (h : snap ≠ QuantizeSnapValue.none) :
    0 < getSnapStepFromQuantizeValue snap := by
  cases snap <;>
    first
      | exact absurd rfl h
      | norm_num [getSnapStepFromQuantizeValue]

/-- The recorded note of the spec's quantize example:
`start = 3.3`, `duration = 1.7`. -/
def exNoteQ : Note := { id := "n", pitch := 60, start := 33/10, duration := 17/10, velocity := 1 }

/-- `quantizeNotes` with a non-`None` setting is a per-note map. -/
lemma quantizeNotes_eq_map (notes : List Note) (snap : QuantizeSnapValue)
    (h : getSnapStepFromQuantizeValue snap ≠ 0) :
    quantizeNotes notes snap = notes.map fun note =>
      { note with
        start := (jsRound (note.start / getSnapStepFromQuantizeValue snap) : Rat) *
          getSnapStepFromQuantizeValue snap
        duration := max (getSnapStepFromQuantizeValue snap)
          ((jsRound (note.duration / getSnapStepFromQuantizeValue snap) : Rat) *
            getSnapStepFromQuantizeValue snap) } := by
  simp only [quantizeNotes]
  rw [if_neg h]

/-- C5.  With quantize `"None"` the notes are returned unchanged; with any
other setting (step sizes `1/2→8, 1/4→4, 1/8→2, 1/16→1, 1/32→0.5,
1/64→0.25`), every note's `start` is replaced by the nearest multiple of
the step size and its `duration` by the nearest multiple that is at least
one quantize unit; the spec's example note `start=3.3, duration=1.7`
yields `start=3, duration=2` at `1/16` and `start=4, duration=4` at
`1/4`. -/
theorem quantizeNotes_snaps_to_nearest_grid :
    (∀ notes, quantizeNotes notes QuantizeSnapValue.none = notes) ∧
    (getSnapStepFromQuantizeValue .half = 8 ∧ getSnapStepFromQuantizeValue .quarter = 4 ∧
      getSnapStepFromQuantizeValue .eighth = 2 ∧ getSnapStepFromQuantizeValue .sixteenth = 1 ∧
      getSnapStepFromQuantizeValue .thirtySecond = 1/2 ∧
      getSnapStepFromQuantizeValue .sixtyFourth = 1/4) ∧
    (∀ (notes : List Note) (snap : QuantizeSnapValue), snap ≠ QuantizeSnapValue.none →
      (quantizeNotes notes snap).length = notes.length ∧
      ∀ (j : Nat) (n : Note), notes[j]? = Option.some n →
        ∃ n2, (quantizeNotes notes snap)[j]? = Option.some n2 ∧
          n2.id = n.id ∧ n2.pitch = n.pitch ∧ n2.velocity = n.velocity ∧
          (∃ k : Int, n2.start = (k : Rat) * getSnapStepFromQuantizeValue snap) ∧
          (∀ k : Int, |n2.start - n.start| ≤
            |(k : Rat) * getSnapStepFromQuantizeValue snap - n.start|) ∧
          (∃ k : Int, n2.duration = (k : Rat) * getSnapStepFromQuantizeValue snap) ∧
          getSnapStepFromQuantizeValue snap ≤ n2.duration ∧
          (∀ k : Int, getSnapStepFromQuantizeValue snap ≤
              (k : Rat) * getSnapStepFromQuantizeValue snap →
            |n2.duration - n.duration| ≤
              |(k : Rat) * getSnapStepFromQuantizeValue snap - n.duration|)) ∧
    (quantizeNotes [exNoteQ] .sixteenth = [{ exNoteQ with start := 3, duration := 2 }] ∧
      quantizeNotes [exNoteQ] .quarter = [{ exNoteQ with start := 4, duration := 4 }]) := by
  refine ⟨fun notes => rfl, ⟨rfl, rfl, rfl, rfl, rfl, rfl⟩, ?_, ?_, ?_⟩
  · intro notes snap hsnap
    have hs : 0 < getSnapStepFromQuantizeValue snap := snapStep_pos hsnap
    have hs0 : getSnapStepFromQuantizeValue snap ≠ 0 := ne_of_gt hs
    set s := getSnapStepFromQuantizeValue snap with hsdef
    rw [quantizeNotes_eq_map notes snap hs0, ← hsdef]
    refine ⟨List.length_map _ _, ?_⟩
    intro j n hj
    refine ⟨{ n with
        start := (jsRound (n.start / s) : Rat) * s
        duration := max s ((jsRound (n.duration / s) : Rat) * s) },
      by rw [List.getElem?_map, hj, Option.map_some'], rfl, rfl, rfl,
      ⟨jsRound (n.start / s), rfl⟩, fun k => jsRound_scaled_nearest n.start s hs k, ?_, ?_, ?_⟩
    · rcases max_cases s ((jsRound (n.duration / s) : Rat) * s) with ⟨h1, _⟩ | ⟨h1, _⟩
      · exact ⟨1, by rw [h1]; ring⟩
      · exact ⟨jsRound (n.duration / s), h1⟩
    · exact le_max_left _ _
    · intro k hk
      show |max s ((jsRound (n.duration / s) : Rat) * s) - n.duration| ≤ _
      rcases le_or_lt s ((jsRound (n.duration / s) : Rat) * s) with hge | hlt
      · rw [max_eq_right hge]
        exact jsRound_scaled_nearest n.duration s hs k
      · rw [max_eq_left (le_of_lt hlt)]
        -- the rounded multiple fell below one unit, so `jsRound (d/s) ≤ 0`
        -- and hence `d < s/2`; the clamped value `s` is then nearest among
        -- the multiples that are ≥ one unit.
        have hr0 : (jsRound (n.duration / s) : Rat) < 1 := by
          by_contra hcon
          push_neg at hcon
          have hcon2 : s ≤ (jsRound (n.duration / s) : Rat) * s := by
            calc s = 1 * s := (one_mul s).symm
            _ ≤ (jsRound (n.duration / s) : Rat) * s :=
              mul_le_mul_of_nonneg_right hcon (le_of_lt hs)
          linarith
        have hrle : (jsRound (n.duration / s) : Rat) ≤ 0 := by
          have h1 : jsRound (n.duration / s) < 1 := by exact_mod_cast hr0
          have h2 : jsRound (n.duration / s) ≤ 0 := by omega
          exact_mod_cast h2
        have hdur : n.duration / s < 1/2 := by
          have h2 : n.duration / s + 1/2 < (jsRound (n.duration / s) : Rat) + 1 :=
            Int.lt_floor_add_one (n.duration / s + 1/2)
          linarith
        have hdur2 : n.duration < s / 2 := by
          have h3 := (div_lt_iff₀ hs).mp hdur
          linarith
        have hks : s ≤ (k : Rat) * s := hk
        rw [abs_of_pos (by linarith), abs_of_pos (by linarith)]
        linarith
  · have f1 : jsRound ((33 : Rat)/10) = 3 := by
      unfold jsRound
      rw [Int.floor_eq_iff]
      norm_num
    have f2 : jsRound ((17 : Rat)/10) = 2 := by
      unfold jsRound
      rw [Int.floor_eq_iff]
      norm_num
    rw [quantizeNotes_eq_map _ _ (by norm_num [getSnapStepFromQuantizeValue])]
    simp only [List.map, getSnapStepFromQuantizeValue, exNoteQ]
    norm_num [f1, f2, max_eq_right_iff]
  · have f1 : jsRound ((33 : Rat)/40) = 1 := by
      unfold jsRound
      rw [Int.floor_eq_iff]
      norm_num
    have f2 : jsRound ((17 : Rat)/40) = 0 := by
      unfold jsRound
      rw [Int.floor_eq_iff]
      norm_num
    rw [quantizeNotes_eq_map _ _ (by norm_num [getSnapStepFromQuantizeValue])]
    simp only [List.map, getSnapStepFromQuantizeValue, exNoteQ]
    norm_num [f1, f2, max_eq_left_iff]

/-- Witness for C5 at a concrete input. -/
theorem quantizeNotes_snaps_witness :
    ∃ n2, (quantizeNotes [exNoteQ] QuantizeSnapValue.quarter)[0]? = Option.some n2 ∧
      (∃ k : Int, n2.start = (k : Rat) * 4) ∧ (4 : Rat) ≤ n2.duration := by
  have h := quantizeNotes_snaps_to_nearest_grid
  obtain ⟨n2, hget, _, _, _, ⟨k, hk⟩, _, _, hdur, _⟩ :=
    (h.2.2.1 [exNoteQ] QuantizeSnapValue.quarter (by decide)).2 0 exNoteQ rfl
  exact ⟨n2, hget, ⟨k, hk⟩, hdur⟩

/-! ## C3 witness fixtures -/

def exEQ : EQState := { low := 0, mid := 0, high := 0, lowFrequency := 250, highFrequency := 4000 }

def exChanT : ChannelState :=
  { id := "c", name := "c", sample := { name := "s", url := "u" }, steps := [0, 1], notes := [],
    volume := 0, pan := 0, cutItself := false, eq := exEQ, effects := [],
    isAudioClipChannel := false, isMuted := false, isSoloed := false }

def exPatT : Pattern := { id := "p", name := "p", channels := [exChanT], length := 16 }

/-- Witness for C3 at a concrete input: toggling a step holding `1` yields
`2`, and right-click resets it to `0`. -/
theorem stepToggle_cycle_witness :
    (((handleStepToggle [exPatT] "p" "c" 1)[0]?.bind fun q => q.channels[0]?).map
        fun c => c.steps.getD 1 0) = Option.some 2 ∧
    (((handleStepSubdivide [exPatT] "p" "c" 1)[0]?.bind fun q => q.channels[0]?).map
        fun c => c.steps.getD 1 0) = Option.some 0 := by
  have h := stepToggle_follows_cycle_and_subdivide_resets
  constructor
  · have h2 := h.2.1 [exPatT] "p" "c" 1 0 0 exPatT exChanT rfl rfl rfl rfl (by decide)
    have hv : nextStepValue (exChanT.steps.getD 1 0) = 2 := rfl
    rw [hv] at h2
    exact h2
  · exact h.2.2 [exPatT] "p" "c" 1 0 0 exPatT exChanT rfl rfl rfl rfl (by decide)

/-! ## C7: pattern length growth -/

/-- C7 (amended).  `handlePatternLengthChange` never truncates: the
active pattern's length becomes the new value, non-audio-clip channels
whose steps arrays are shorter are padded with zeros up to the new
length, all existing step values are preserved, and audio-clip channels
and other patterns are untouched.  Growing 16→32 leaves indices 16–31 at
`0` provided the existing array held no nonzero value beyond index 15
(freshly created arrays hold zeros there). -/
theorem patternLengthChange_pads_never_truncates :
    ∀ (ps : List Pattern) (aid : String) (newLen : Nat) (j : Nat) (p : Pattern),
      ps[j]? = Option.some p →
      ∃ p2, (handlePatternLengthChange ps aid newLen)[j]? = Option.some p2 ∧
        (p.id ≠ aid → p2 = p) ∧
        (p.id = aid →
          p2.id = p.id ∧ p2.name = p.name ∧ p2.length = newLen ∧
          p2.channels.length = p.channels.length ∧
          ∀ (k : Nat) (ch : ChannelState), p.channels[k]? = Option.some ch →
            ∃ ch2, p2.channels[k]? = Option.some ch2 ∧
              (ch.isAudioClipChannel = true → ch2 = ch) ∧
              (ch.isAudioClipChannel = false →
                ch2.steps.length = max ch.steps.length newLen ∧
                (∀ i, i < ch.steps.length → ch2.steps.getD i 0 = ch.steps.getD i 0) ∧
                (∀ i, ch.steps.length ≤ i → i < newLen → ch2.steps.getD i 0 = 0) ∧
                ((∀ i, 16 ≤ i → ch.steps.getD i 0 = 0) → newLen = 32 →
                  ∀ i, 16 ≤ i → i < 32 → ch2.steps.getD i 0 = 0))) := by
  intro ps aid newLen j p hj
  unfold handlePatternLengthChange
  rw [List.getElem?_map, hj, Option.map_some']
  refine ⟨_, rfl, ?_, ?_⟩
  · intro hne
    rw [if_pos hne]
  · intro hid
    rw [if_neg (by simp [hid])]
    refine ⟨rfl, rfl, rfl, List.length_map _ _, ?_⟩
    intro k ch hk
    rw [List.getElem?_map, hk, Option.map_some']
    refine ⟨_, rfl, ?_, ?_⟩
    · intro hclip
      rw [if_pos hclip]
    · intro hclip
      rw [if_neg (by simp [hclip])]
      by_cases hlen : ch.steps.length < newLen
      · rw [if_pos hlen]
        have hpre : ∀ i, i < ch.steps.length →
            (ch.steps ++ List.replicate (newLen - ch.steps.length) 0).getD i 0 =
              ch.steps.getD i 0 := by
          intro i hi
          simp [List.getD_eq_getElem?_getD, List.getElem?_append, hi]
        have hpad : ∀ i, ch.steps.length ≤ i → i < newLen →
            (ch.steps ++ List.replicate (newLen - ch.steps.length) 0).getD i 0 = 0 := by
          intro i hi hi2
          have hrep : i - ch.steps.length < newLen - ch.steps.length := by omega
          simp [List.getD_eq_getElem?_getD, List.getElem?_append_right hi,
            List.getElem?_replicate, hrep]
        refine ⟨by simp [List.length_append, List.length_replicate]; omega, hpre, hpad, ?_⟩
        intro hzero h32 i h16 h32i
        by_cases hi : i < ch.steps.length
        · rw [hpre i hi]
          exact hzero i h16
        · exact hpad i (le_of_not_lt hi) (h32 ▸ h32i)
      · rw [if_neg hlen]
        push_neg at hlen
        refine ⟨by omega, fun i _ => rfl, fun i hi hi2 => absurd (lt_of_lt_of_le hi2 hlen) (by omega), ?_⟩
        intro hzero h32 i h16 _
        exact hzero i h16

/-- Witness for C7 at a concrete input: growing the example 16-step
pattern to 32 pads nothing away and preserves index 1. -/
theorem patternLengthChange_witness :
    ∃ p2, (handlePatternLengthChange [exPatT] "p" 32)[0]? = Option.some p2 ∧
      p2.length = 32 ∧ ∃ ch2, p2.channels[0]? = Option.some ch2 ∧ ch2.steps.getD 1 0 = 1 := by
  obtain ⟨p2, hp2, -, hact⟩ :=
    patternLengthChange_pads_never_truncates [exPatT] "p" 32 0 exPatT rfl
  obtain ⟨-, -, hlen, -, hch⟩ := hact rfl
  obtain ⟨ch2, hch2, -, hsteps⟩ := hch 0 exChanT rfl
  refine ⟨p2, hp2, hlen, ch2, hch2, ?_⟩
  have h1 := (hsteps rfl).2.1 1 (by decide)
  rw [h1]
  rfl

/-- The stale-value channel for the C7 counterexample: its steps array is
32 long with a leftover `1` at index 20 (as arises after shrinking a
32-step pattern back to 16 — `handlePatternLengthChange` never
truncates). -/
def exChanGrow : ChannelState :=
  { id := "c", name := "c", sample := { name := "s", url := "u" },
    steps := List.replicate 20 0 ++ 1 :: List.replicate 11 0, notes := [],
    volume := 0, pan := 0, cutItself := false, eq := exEQ, effects := [],
    isAudioClipChannel := false, isMuted := false, isSoloed := false }

def exPatGrow : Pattern := { id := "p1", name := "P", channels := [exChanGrow], length := 16 }

/-- C7 counterexample.  Growing this length-16 pattern to 32 does NOT
leave every channel with value 0 at indices 16–31: index 20 still holds
the stale value `1`, so the claim's unconditional "sets indices 16–31 to
0" is false on the code. -/
theorem patternLengthChange_cex :
    exPatGrow.length = 16 ∧
    ((handlePatternLengthChange [exPatGrow] "p1" 32)[0]?.map Pattern.length) = Option.some 32 ∧
    ¬(∀ i, 16 ≤ i → i < 32 →
        (((handlePatternLengthChange [exPatGrow] "p1" 32)[0]?.bind fun q => q.channels[0]?).map
            fun c => c.steps.getD i 0) = Option.some 0) := by
  refine ⟨rfl, by decide, fun hall => ?_⟩
  have h20 := hall 20 (by decide) (by decide)
  exact absurd h20 (by decide)

/-! ## C6: the swing threshold -/

/-- C6 counterexample.  `swing = 1/200` lies in `(0, 0.01]`, yet the
export path still delays the odd step: `exportPatternToWav` tests
`swing > 0` rather than the live path's `swing > 0.01` threshold, so the
claim's "no odd-step delay is applied … in export" fails. -/
theorem swingThreshold_cex :
    (0 : Rat) < 1/200 ∧ (1/200 : Rat) ≤ 1/100 ∧
    exportStepTime 60 (1/200) 1 ≠ (1 : Rat) * secondsPer16th 60 := by
  refine ⟨by norm_num, by norm_num, ?_⟩
  unfold exportStepTime secondsPer16th
  rw [if_pos ⟨by norm_num, rfl⟩]
  norm_num

/-- C6 (amended).  Even steps are never shifted.  For `0 < swing ≤ 0.01`
the LIVE transport treats swing as disabled (no odd-step delay), but the
EXPORT path applies the full `swing × (sp16/2)` delay to odd steps for
every `swing > 0`; above the `0.01` threshold both paths delay odd steps
by exactly `swing × (sp16/2)`; with `swing = 0` neither path shifts. -/
theorem swingThreshold_amended :
    ∀ (bpm swing : Rat) (i : Nat),
      (i % 2 = 0 → liveStepTime bpm swing i = (i : Rat) * secondsPer16th bpm ∧
        exportStepTime bpm swing i = (i : Rat) * secondsPer16th bpm) ∧
      (0 < swing → swing ≤ 1/100 →
        liveStepTime bpm swing i = (i : Rat) * secondsPer16th bpm ∧
        (i % 2 = 1 → exportStepTime bpm swing i =
          (i : Rat) * secondsPer16th bpm + swing * (secondsPer16th bpm / 2))) ∧
      (1/100 < swing → i % 2 = 1 →
        liveStepTime bpm swing i = (i : Rat) * secondsPer16th bpm + swing * (secondsPer16th bpm / 2) ∧
        exportStepTime bpm swing i = (i : Rat) * secondsPer16th bpm + swing * (secondsPer16th bpm / 2)) ∧
      (swing = 0 → liveStepTime bpm swing i = (i : Rat) * secondsPer16th bpm ∧
        exportStepTime bpm swing i = (i : Rat) * secondsPer16th bpm) := by
  intro bpm swing i
  refine ⟨?_, ?_, ?_, ?_⟩
  · intro heven
    have hne : ¬(i % 2 = 1) := by omega
    constructor
    · simp [liveStepTime, liveSwingDelay, hne]
    · simp [exportStepTime, hne]
  · intro hpos hle
    have hns : ¬(swing > 1/100) := not_lt.mpr hle
    constructor
    · unfold liveStepTime liveSwingDelay liveEffectiveSwing
      by_cases hodd : i % 2 = 1
      · rw [if_pos hodd, if_neg hns]
        ring
      · rw [if_neg hodd]
        ring
    · intro hodd
      unfold exportStepTime
      rw [if_pos ⟨hpos, hodd⟩]
  · intro hgt hodd
    have hpos : (0 : Rat) < swing := lt_trans (by norm_num) hgt
    constructor
    · unfold liveStepTime liveSwingDelay liveEffectiveSwing
      rw [if_pos hodd, if_pos hgt]
    · unfold exportStepTime
      rw [if_pos ⟨hpos, hodd⟩]
  · intro hzero
    subst hzero
    constructor
    · by_cases hodd : i % 2 = 1 <;>
        simp [liveStepTime, liveSwingDelay, liveEffectiveSwing, hodd]
    · by_cases hodd : i % 2 = 1 <;> simp [exportStepTime, hodd]

/-- Witness for the amended C6 at a concrete input. -/
theorem swingThreshold_amended_witness :
    liveStepTime 60 (1/200) 1 = (1 : Rat) * secondsPer16th 60 ∧
    exportStepTime 60 (1/200) 1 = (1 : Rat) * secondsPer16th 60 + (1/200) * (secondsPer16th 60 / 2) := by
  have h := (swingThreshold_amended 60 (1/200) 1).2.1 (by norm_num) (by norm_num)
  exact ⟨h.1, h.2 rfl⟩

/-! ## C8: undo/redo round-trip -/

lemma headD_append_single {α : Type} (u : List α) (v d : α) :
    (u ++ [v]).headD d = u.headD v := by
  cases u <;> simp

lemma tail_append_left {α : Type} {u : List α} (w : List α) (h : u ≠ []) :
    (u ++ w).tail = u.tail ++ w := by
  cases u with
  | nil => exact absurd rfl h
  | cons a u2 => simp

/-- Undoing at least `past.length` times drains the whole `past`: the
oldest snapshot becomes present and everything else shifts onto
`future`, after which further undos are no-ops. -/
lemma histUndo_iterate_drains {α : Type} (n : Nat) (l : List α) (x : α) (f : List α)
    (h : l.length ≤ n) :
    histUndo^[n] (⟨l, x, f⟩ : History α) = ⟨[], (l ++ [x]).headD x, (l ++ [x]).tail ++ f⟩ := by
  induction n generalizing l x f with
  | zero =>
    have hl : l = [] := List.length_eq_zero.mp (Nat.le_zero.mp h)
    subst hl
    simp
  | succ n ih =>
    rcases l.eq_nil_or_concat with hl | ⟨l2, b, hl⟩
    · subst hl
      have hstep : histUndo (⟨[], x, f⟩ : History α) = ⟨[], x, f⟩ := by
        simp [histUndo]
      rw [Function.iterate_succ_apply, hstep, ih [] x f (by simp)]
    · rw [List.concat_eq_append] at hl
      subst hl
      have hstep : histUndo (⟨l2 ++ [b], x, f⟩ : History α) = ⟨l2, b, x :: f⟩ := by
        simp [histUndo, List.getLast?_concat, List.dropLast_concat]
      rw [Function.iterate_succ_apply, hstep,
        ih l2 b (x :: f) (by simp at h; omega)]
      have hne : l2 ++ [b] ≠ [] := by simp
      refine congrArg₂ (fun a c => History.mk [] a c) ?_ ?_
      · cases l2 <;> simp
      · rw [tail_append_left [x] hne, List.append_assoc]
        simp

/-- Redoing at least `future.length` times replays the whole `future`;
the final present is the last replayed element. -/
lemma histRedo_iterate_present {α : Type} (n : Nat) (p : List α) (x : α) (t : List α)
    (h : t.length ≤ n) :
    (histRedo^[n] (⟨p, x, t⟩ : History α)).present = t.getLastD x := by
  induction n generalizing p x t with
  | zero =>
    have hl : t = [] := List.length_eq_zero.mp (Nat.le_zero.mp h)
    subst hl
    simp
  | succ n ih =>
    cases t with
    | nil =>
      have hstep : histRedo (⟨p, x, []⟩ : History α) = ⟨p, x, []⟩ := by
        simp [histRedo]
      rw [Function.iterate_succ_apply, hstep, ih p x [] (by simp)]
    | cons a t2 =>
      have hstep : histRedo (⟨p, x, a :: t2⟩ : History α) = ⟨p ++ [x], a, t2⟩ := rfl
      rw [Function.iterate_succ_apply, hstep, ih (p ++ [x]) a t2 (by simp at h; omega)]
      cases t2 <;> rfl

/-- Invariant of a mutation sequence run through `histSet`: starting from
an empty `future`, the future stays empty, the oldest recorded snapshot
(the head of `past ++ [present]`) never changes, and at most one `past`
entry is pushed per mutation. -/
lemma applyMutations_inv {α : Type} [DecidableEq α] (fs : List (α → α)) (h : History α)
    (hf : h.future = []) :
    (applyMutations h fs).future = [] ∧
    ((applyMutations h fs).past ++ [(applyMutations h fs).present]).headD
        (applyMutations h fs).present = (h.past ++ [h.present]).headD h.present ∧
    (applyMutations h fs).past.length ≤ h.past.length + fs.length := by
  induction fs generalizing h with
  | nil => exact ⟨hf, rfl, Nat.le_add_right _ _⟩
  | cons f fs ih =>
    have hfold : applyMutations h (f :: fs) = applyMutations (histSet h (f h.present) false) fs :=
      rfl
    rw [hfold]
    by_cases heq : f h.present = h.present
    · have hset : histSet h (f h.present) false = h := by
        rw [histSet, if_pos heq]
      rw [hset]
      obtain ⟨h1, h2, h3⟩ := ih h hf
      exact ⟨h1, h2, by simp only [List.length_cons]; omega⟩
    · have hset : histSet h (f h.present) false =
          ⟨h.past ++ [h.present], f h.present, []⟩ := by
        rw [histSet, if_neg heq]
        rfl
      rw [hset]
      obtain ⟨h1, h2, h3⟩ := ih ⟨h.past ++ [h.present], f h.present, []⟩ rfl
      refine ⟨h1, ?_, by simp at h3 ⊢; omega⟩
      rw [h2]
      simp only [headD_append_single]

/-- C8.  For any initial pattern-store value and any sequence of `N`
mutations applied through the history wrapper, `N` undos restore the
state before the first mutation and `N` further redos restore the
pre-undo present; a mutation producing a value structurally equal to the
current present pushes nothing, and any genuinely new present pushes the
old one and clears `future`. -/
theorem history_undo_redo_round_trip :
    (∀ (α : Type) [DecidableEq α] (p0 : α) (fs : List (α → α)),
      (histUndo^[fs.length] (applyMutations (mkHistory p0) fs)).present = p0 ∧
      (histRedo^[fs.length] (histUndo^[fs.length] (applyMutations (mkHistory p0) fs))).present =
        (applyMutations (mkHistory p0) fs).present) ∧
    (∀ (α : Type) [DecidableEq α] (h : History α) (v : α), v = h.present →
      histSet h v false = h) ∧
    (∀ (α : Type) [DecidableEq α] (h : History α) (v : α), v ≠ h.present →
      histSet h v false = ⟨h.past ++ [h.present], v, []⟩) := by
  refine ⟨?_, ?_, ?_⟩
  · intro α _ p0 fs
    obtain ⟨hf, hhead, hlen⟩ := applyMutations_inv fs (mkHistory p0) rfl
    set H := applyMutations (mkHistory p0) fs with hH
    have hhead2 : (H.past ++ [H.present]).headD H.present = p0 := by
      rw [hhead]
      rfl
    have hlen2 : H.past.length ≤ fs.length := by
      simpa [mkHistory] using hlen
    have hundo : histUndo^[fs.length] H =
        ⟨[], (H.past ++ [H.present]).headD H.present, (H.past ++ [H.present]).tail ++ H.future⟩ := by
      have heta : H = ⟨H.past, H.present, H.future⟩ := rfl
      rw [heta]
      exact histUndo_iterate_drains fs.length H.past H.present H.future hlen2
    constructor
    · rw [hundo]
      exact hhead2
    · rw [hundo]
      have htlen : ((H.past ++ [H.present]).tail ++ H.future).length ≤ fs.length := by
        rw [hf]
        simp only [List.append_nil, List.length_tail, List.length_append, List.length_cons]
        simp
        omega
      rw [histRedo_iterate_present fs.length [] _ _ htlen]
      rcases H.past.eq_nil_or_concat with hp | ⟨u, a, hp⟩
      · rw [hf, hp]
        simp
      · rw [List.concat_eq_append] at hp
        rw [hf, hp, tail_append_left [H.present] (by simp), List.append_nil]
        rcases u with _ | ⟨c, u2⟩
        · simp
        · simp [List.getLastD_concat]
  · intro α _ h v hv
    rw [histSet, if_pos hv]
  · intro α _ h v hv
    rw [histSet, if_neg hv]
    rfl

/-- Witness for C8 at a concrete input (two mutations over `Nat`). -/
theorem history_round_trip_witness :
    (histUndo^[2] (applyMutations (mkHistory (0 : Nat))
        [fun n => n + 1, fun n => n * 2])).present = 0 ∧
    (histRedo^[2] (histUndo^[2] (applyMutations (mkHistory (0 : Nat))
        [fun n => n + 1, fun n => n * 2]))).present =
      (applyMutations (mkHistory (0 : Nat)) [fun n => n + 1, fun n => n * 2]).present :=
  history_undo_redo_round_trip.1 Nat 0 [fun n => n + 1, fun n => n * 2]

/-! ## C9: mute/solo mutual exclusion -/

lemma handleChannelMuteSoloChange_cons_none (p0 : Pattern) (rest : List Pattern)
    (cid : String) (k : MuteSoloKind)
    (hidx : (p0.channels.findIdx? fun c => c.id = cid) = Option.none) :
    handleChannelMuteSoloChange (p0 :: rest) cid k = p0 :: rest := by
  simp only [handleChannelMuteSoloChange, hidx]

lemma handleChannelMuteSoloChange_cons_eq (p0 : Pattern) (rest : List Pattern)
    (cid : String) (k : MuteSoloKind) (idx : Nat) (ch0 : ChannelState)
    (hidx : (p0.channels.findIdx? fun c => c.id = cid) = Option.some idx)
    (hch0 : p0.channels[idx]? = Option.some ch0) :
    handleChannelMuteSoloChange (p0 :: rest) cid k =
      (p0 :: rest).map fun p =>
        { p with channels := p.channels.mapIdx fun j c =>
            if j ≠ idx then c
            else { c with isMuted := (muteSoloFlags ch0 k).1
                          isSoloed := (muteSoloFlags ch0 k).2 } } := by
  simp only [handleChannelMuteSoloChange, hidx, hch0]

/-- C9.  The flag pair computed by `handleChannelMuteSoloChange` never has
both components true: toggling mute ON clears the solo flag and toggling
solo ON clears the mute flag; consequently, if no channel of any pattern
has both flags set, the same holds after any mute or solo toggle. -/
theorem muteSolo_mutual_exclusion :
    (∀ (ch : ChannelState) (k : MuteSoloKind),
      ¬((muteSoloFlags ch k).1 = true ∧ (muteSoloFlags ch k).2 = true)) ∧
    (∀ ch : ChannelState, ch.isMuted = false →
      muteSoloFlags ch MuteSoloKind.mute = (true, false)) ∧
    (∀ ch : ChannelState, ch.isSoloed = false →
      muteSoloFlags ch MuteSoloKind.solo = (false, true)) ∧
    (∀ (ps : List Pattern) (cid : String) (k : MuteSoloKind),
      (∀ p ∈ ps, ∀ c ∈ p.channels, ¬(c.isMuted = true ∧ c.isSoloed = true)) →
      ∀ p ∈ handleChannelMuteSoloChange ps cid k, ∀ c ∈ p.channels,
        ¬(c.isMuted = true ∧ c.isSoloed = true)) := by
  have hexcl : ∀ (ch : ChannelState) (k : MuteSoloKind),
      ¬((muteSoloFlags ch k).1 = true ∧ (muteSoloFlags ch k).2 = true) := by
    intro ch k
    cases k <;> cases hm : ch.isMuted <;> cases hs : ch.isSoloed <;>
      simp [muteSoloFlags, hm, hs]
  refine ⟨hexcl, ?_, ?_, ?_⟩
  · intro ch hm
    simp [muteSoloFlags, hm]
  · intro ch hs
    simp [muteSoloFlags, hs]
  · intro ps cid k hinv p hp c hc
    match ps, hp with
    | p0 :: rest, hp => ?_
    rcases hidx : (p0.channels.findIdx? fun c => c.id = cid) with _ | idx
    · rw [handleChannelMuteSoloChange_cons_none p0 rest cid k hidx] at hp
      exact hinv p hp c hc
    · rcases hch0 : p0.channels[idx]? with _ | ch0
      · have hnone : handleChannelMuteSoloChange (p0 :: rest) cid k = p0 :: rest := by
          simp only [handleChannelMuteSoloChange, hidx, hch0]
        rw [hnone] at hp
        exact hinv p hp c hc
      · rw [handleChannelMuteSoloChange_cons_eq p0 rest cid k idx ch0 hidx hch0] at hp
        simp only [List.mem_map] at hp
        obtain ⟨q, hq, rfl⟩ := hp
        simp only at hc
        obtain ⟨i, hi, rfl⟩ := List.exists_of_mem_mapIdx hc
        by_cases hiidx : i ≠ idx
        · rw [if_pos hiidx]
          exact hinv q hq _ (List.getElem_mem hi)
        · rw [if_neg hiidx]
          intro hcontra
          exact hexcl ch0 k ⟨hcontra.1, hcontra.2⟩

/-- Witness for C9 at a concrete input: the example channel is not muted,
so toggling mute turns the pair into `(true, false)`. -/
theorem muteSolo_mutual_exclusion_witness :
    muteSoloFlags exChanT MuteSoloKind.mute = (true, false) :=
  muteSolo_mutual_exclusion.2.1 exChanT rfl

/-! ## C10: cross-pattern channel edits -/

/-- The mixer projection of `applyPatch` is a function of the mixer
projection alone. -/
def mixerPatch (m : Rat × Rat × EQState × List (Option EffectState) × Bool × Bool)
    (pr : ChannelPatch) : Rat × Rat × EQState × List (Option EffectState) × Bool × Bool :=
  (pr.volume.getD m.1, pr.pan.getD m.2.1, pr.eq.getD m.2.2.1, pr.effects.getD m.2.2.2.1,
    pr.isMuted.getD m.2.2.2.2.1, pr.isSoloed.getD m.2.2.2.2.2)

lemma mixerOf_applyPatch (ch : ChannelState) (pr : ChannelPatch) :
    mixerOf (applyPatch ch pr) = mixerPatch (mixerOf ch) pr := rfl

lemma handleChannelChange_cons_none (p0 : Pattern) (rest : List Pattern) (cid : String)
    (pr : ChannelPatch)
    (hidx : (p0.channels.findIdx? fun c => c.id = cid) = Option.none) :
    handleChannelChange (p0 :: rest) cid pr = p0 :: rest := by
  simp only [handleChannelChange, hidx]

lemma handleChannelChange_cons_eq (p0 : Pattern) (rest : List Pattern) (cid : String)
    (pr : ChannelPatch) (idx : Nat)
    (hidx : (p0.channels.findIdx? fun c => c.id = cid) = Option.some idx) :
    handleChannelChange (p0 :: rest) cid pr =
      (p0 :: rest).map fun p =>
        { p with channels := p.channels.mapIdx fun j c =>
            if j ≠ idx then c else applyPatch c pr } := by
  simp only [handleChannelChange, hidx]

abbrev MixerSettings := Rat × Rat × EQState × List (Option EffectState) × Bool × Bool

lemma map_mapIdx_comm {α β : Type} (l : List α) (f : Nat → α → α) (g : α → β)
    (f2 : Nat → β → β) (h : ∀ i a, g (f i a) = f2 i (g a)) :
    (l.mapIdx f).map g = (l.map g).mapIdx f2 := by
  apply List.ext_getElem?
  intro i
  rw [List.getElem?_map, List.getElem?_mapIdx, List.getElem?_mapIdx, List.getElem?_map]
  cases l[i]? <;> simp [h]

/-- A per-index channel rewrite applied to every pattern preserves
parallel channel lists whenever its mixer image is a function of the
mixer settings alone. -/
lemma channelsParallel_map_mapIdx (ps : List Pattern) (f : Nat → ChannelState → ChannelState)
    (f2 : Nat → MixerSettings → MixerSettings)
    (h : ∀ i a, mixerOf (f i a) = f2 i (mixerOf a))
    (hpar : ChannelsParallel ps) :
    ChannelsParallel (ps.map fun p => { p with channels := p.channels.mapIdx f }) := by
  intro p1 hp1 p2 hp2
  simp only [List.mem_map] at hp1 hp2
  obtain ⟨q1, hq1, rfl⟩ := hp1
  obtain ⟨q2, hq2, rfl⟩ := hp2
  show (q1.channels.mapIdx f).map mixerOf = (q2.channels.mapIdx f).map mixerOf
  rw [map_mapIdx_comm q1.channels f mixerOf f2 h, map_mapIdx_comm q2.channels f mixerOf f2 h,
    hpar q1 hq1 q2 hq2]

/-- C10.  Channel-level edits are applied at the same channel index in
every pattern in the store: `handleChannelChange` merges the partial
update into the channel at the index found in the first pattern, in every
pattern, leaving channels at other indices and all other pattern fields
unchanged; `handleChannelMuteSoloChange` writes only the two flags at
that index in every pattern; `handleAddChannel` appends the new channel
to every pattern.  Consequently parallel channel lists (same length, same
per-index mixer settings) stay parallel under all three operations. -/
theorem channelEdits_same_index_every_pattern :
    (∀ (ps : List Pattern) (cid : String) (pr : ChannelPatch) (p0 : Pattern)
        (rest : List Pattern) (idx : Nat),
      ps = p0 :: rest → (p0.channels.findIdx? fun c => c.id = cid) = Option.some idx →
      ∀ (j : Nat) (p : Pattern), ps[j]? = Option.some p →
        ∃ p2, (handleChannelChange ps cid pr)[j]? = Option.some p2 ∧
          p2.id = p.id ∧ p2.name = p.name ∧ p2.length = p.length ∧
          p2.channels.length = p.channels.length ∧
          (∀ k, k ≠ idx → p2.channels[k]? = p.channels[k]?) ∧
          p2.channels[idx]? = (p.channels[idx]?).map fun c => applyPatch c pr) ∧
    (∀ (ps : List Pattern) (cid : String) (k : MuteSoloKind) (p0 : Pattern)
        (rest : List Pattern) (idx : Nat) (ch0 : ChannelState),
      ps = p0 :: rest → (p0.channels.findIdx? fun c => c.id = cid) = Option.some idx →
      p0.channels[idx]? = Option.some ch0 →
      ∀ (j : Nat) (p : Pattern), ps[j]? = Option.some p →
        ∃ p2, (handleChannelMuteSoloChange ps cid k)[j]? = Option.some p2 ∧
          p2.id = p.id ∧ p2.name = p.name ∧ p2.length = p.length ∧
          p2.channels.length = p.channels.length ∧
          (∀ i, i ≠ idx → p2.channels[i]? = p.channels[i]?) ∧
          p2.channels[idx]? = (p.channels[idx]?).map fun c =>
            { c with isMuted := (muteSoloFlags ch0 k).1, isSoloed := (muteSoloFlags ch0 k).2 }) ∧
    (∀ (ps : List Pattern) (nc : ChannelState) (j : Nat) (p : Pattern),
      ps[j]? = Option.some p →
      (handleAddChannel ps nc)[j]? = Option.some { p with channels := p.channels ++ [nc] }) ∧
    (∀ (ps : List Pattern) (cid : String) (pr : ChannelPatch),
      ChannelsParallel ps → ChannelsParallel (handleChannelChange ps cid pr)) ∧
    (∀ (ps : List Pattern) (cid : String) (k : MuteSoloKind),
      ChannelsParallel ps → ChannelsParallel (handleChannelMuteSoloChange ps cid k)) ∧
    (∀ (ps : List Pattern) (nc : ChannelState),
      ChannelsParallel ps → ChannelsParallel (handleAddChannel ps nc)) := by
  refine ⟨?_, ?_, ?_, ?_, ?_, ?_⟩
  · intro ps cid pr p0 rest idx hps hidx j p hj
    subst hps
    rw [handleChannelChange, hidx, List.getElem?_map, hj, Option.map_some']
    refine ⟨_, rfl, rfl, rfl, rfl, List.length_mapIdx, ?_, ?_⟩
    · intro k hk
      rw [List.getElem?_mapIdx]
      cases p.channels[k]? <;> simp [hk]
    · rw [List.getElem?_mapIdx]
      cases p.channels[idx]? <;> simp
  · intro ps cid k p0 rest idx ch0 hps hidx hch0 j p hj
    subst hps
    rw [handleChannelMuteSoloChange_cons_eq p0 rest cid k idx ch0 hidx hch0,
      List.getElem?_map, hj, Option.map_some']
    refine ⟨_, rfl, rfl, rfl, rfl, List.length_mapIdx, ?_, ?_⟩
    · intro i hi
      rw [List.getElem?_mapIdx]
      cases p.channels[i]? <;> simp [hi]
    · rw [List.getElem?_mapIdx]
      cases p.channels[idx]? <;> simp
  · intro ps nc j p hj
    rw [handleAddChannel, List.getElem?_map, hj, Option.map_some']
  · intro ps cid pr hpar
    cases ps with
    | nil => exact hpar
    | cons p0 rest =>
      rcases hidx : (p0.channels.findIdx? fun c => c.id = cid) with _ | idx
      · rw [handleChannelChange_cons_none p0 rest cid pr hidx]
        exact hpar
      · rw [handleChannelChange_cons_eq p0 rest cid pr idx hidx]
        exact channelsParallel_map_mapIdx (p0 :: rest) _
          (fun j m => if j ≠ idx then m else mixerPatch m pr)
          (fun i a => by by_cases hi : i ≠ idx <;> simp [hi, mixerOf_applyPatch]) hpar
  · intro ps cid k hpar
    cases ps with
    | nil => exact hpar
    | cons p0 rest =>
      rcases hidx : (p0.channels.findIdx? fun c => c.id = cid) with _ | idx
      · rw [handleChannelMuteSoloChange_cons_none p0 rest cid k hidx]
        exact hpar
      · rcases hch0 : p0.channels[idx]? with _ | ch0
        · have hnone : handleChannelMuteSoloChange (p0 :: rest) cid k = p0 :: rest := by
            simp only [handleChannelMuteSoloChange, hidx, hch0]
          rw [hnone]
          exact hpar
        · rw [handleChannelMuteSoloChange_cons_eq p0 rest cid k idx ch0 hidx hch0]
          exact channelsParallel_map_mapIdx (p0 :: rest) _
            (fun j m => if j ≠ idx then m
              else (m.1, m.2.1, m.2.2.1, m.2.2.2.1,
                (muteSoloFlags ch0 k).1, (muteSoloFlags ch0 k).2))
            (fun i a => by by_cases hi : i ≠ idx <;> simp [hi, mixerOf]) hpar
  · intro ps nc hpar p1 hp1 p2 hp2
    rw [handleAddChannel] at hp1 hp2
    simp only [List.mem_map] at hp1 hp2
    obtain ⟨q1, hq1, rfl⟩ := hp1
    obtain ⟨q2, hq2, rfl⟩ := hp2
    show (q1.channels ++ [nc]).map mixerOf = (q2.channels ++ [nc]).map mixerOf
    rw [List.map_append, List.map_append, hpar q1 hq1 q2 hq2]

/-- Witness for C10 at a concrete input: adding a channel to a one-pattern
store appends it to that pattern. -/
theorem channelEdits_witness :
    (handleAddChannel [exPatT] exChanT)[0]? =
      Option.some { exPatT with channels := exPatT.channels ++ [exChanT] } :=
  channelEdits_same_index_every_pattern.2.2.1 [exPatT] exChanT 0 exPatT rfl

/-! ## C4: playlist placement and the non-overlap invariant -/

lemma overlapsNew_eq_false_iff {pats : List Pattern} {bp : Pattern} {track bar : Nat}
    {e : (Nat × Nat) × String} :
    overlapsNew pats bp track bar e = false ↔
      (e.1.1 = track → ∀ p, findPattern pats e.2 = Option.some p →
        ¬(16 * bar < 16 * e.1.2 + p.length ∧ 16 * e.1.2 < 16 * bar + bp.length)) := by
  unfold overlapsNew
  cases hf : findPattern pats e.2 with
  | none =>
    constructor
    · intro _ _ p hp
      cases hp
    · intro _
      simp
  | some p =>
    constructor
    · intro h htr q hq
      cases hq
      intro hcon
      simp [htr, hcon.1, hcon.2] at h
    · intro h
      by_cases htr : e.1.1 = track
      · have h2 := h htr p rfl
        by_cases hA : 16 * bar < 16 * e.1.2 + p.length
        · have hB : ¬(16 * e.1.2 < 16 * bar + bp.length) := fun hB => h2 ⟨hA, hB⟩
          simp [htr, hB]
        · simp [htr, hA]
      · simp [htr]

/-- Membership in the playlist after `handleGridClick`: exactly the new
entry plus the old entries that neither overlap it on its track nor sit
at the clicked key. -/
lemma mem_handleGridClick {pl : PlaylistL} {pats : List Pattern} {brushId : String}
    {track bar : Nat} {bp : Pattern}
    (hbp : findPattern pats brushId = Option.some bp) (e : (Nat × Nat) × String) :
    e ∈ handleGridClick pl pats brushId track bar ↔
      e = ((track, bar), brushId) ∨
        (e ∈ pl ∧ overlapsNew pats bp track bar e = false ∧ e.1 ≠ (track, bar)) := by
  have heq : handleGridClick pl pats brushId track bar =
      if (pl.filter fun e => !(overlapsNew pats bp track bar e)).any
          (fun e => e.1 = (track, bar)) then
        (pl.filter fun e => !(overlapsNew pats bp track bar e)).map fun e =>
          if e.1 = (track, bar) then ((track, bar), brushId) else e
      else (pl.filter fun e => !(overlapsNew pats bp track bar e)) ++
        [((track, bar), brushId)] := by
    simp only [handleGridClick, hbp]
  rw [heq]
  set pruned := pl.filter (fun e => !(overlapsNew pats bp track bar e)) with hpruned
  have hmemp : ∀ x, x ∈ pruned ↔ x ∈ pl ∧ overlapsNew pats bp track bar x = false := by
    intro x
    rw [hpruned]
    simp [List.mem_filter]
  by_cases hany : pruned.any (fun e => e.1 = (track, bar))
  · rw [if_pos hany]
    constructor
    · intro hm
      rw [List.mem_map] at hm
      obtain ⟨x, hx, rfl⟩ := hm
      by_cases hk : x.1 = (track, bar)
      · rw [if_pos (by simpa using hk)]
        exact Or.inl rfl
      · rw [if_neg (by simpa using hk)]
        exact Or.inr ⟨(hmemp x).mp hx |>.1, ((hmemp x).mp hx).2, hk⟩
    · rintro (rfl | ⟨hmem, hsur, hk⟩)
      · rw [List.any_eq_true] at hany
        obtain ⟨x, hx, hxk⟩ := hany
        rw [List.mem_map]
        exact ⟨x, hx, by rw [if_pos (of_decide_eq_true hxk)]⟩
      · rw [List.mem_map]
        refine ⟨e, (hmemp e).mpr ⟨hmem, hsur⟩, ?_⟩
        rw [if_neg (by simpa using hk)]
  · rw [if_neg hany]
    rw [Bool.not_eq_true, List.any_eq_false] at hany
    rw [List.mem_append, List.mem_singleton, hmemp e]
    constructor
    · rintro (⟨hmem, hsur⟩ | he)
      · refine Or.inr ⟨hmem, hsur, ?_⟩
        have := hany e ((hmemp e).mpr ⟨hmem, hsur⟩)
        simpa using this
      · exact Or.inl he
    · rintro (rfl | ⟨hmem, hsur, _⟩)
      · exact Or.inr rfl
      · exact Or.inl ⟨hmem, hsur⟩

lemma handleGridClick_preserves_no_overlap (pl : PlaylistL) (pats : List Pattern)
    (brushId : String) (track bar : Nat) (hInv : PlaylistNoOverlap pats pl) :
    PlaylistNoOverlap pats (handleGridClick pl pats brushId track bar) := by
  cases hbp : findPattern pats brushId with
  | none =>
    have hid : handleGridClick pl pats brushId track bar = pl := by
      simp only [handleGridClick, hbp]
    rw [hid]
    exact hInv
  | some bp =>
    intro e1 he1 e2 he2 hne htrack p1 p2 hp1 hp2 x hx
    rw [mem_handleGridClick hbp] at he1 he2
    have hnewcase : ∀ eo : (Nat × Nat) × String, eo ∈ pl →
        overlapsNew pats bp track bar eo = false → eo.1.1 = track →
        ∀ po, findPattern pats eo.2 = Option.some po →
        coversBar bar bp.length x → coversBar eo.1.2 po.length x → False := by
      intro eo _ hsur htr po hpo hc1 hc2
      have h2 := (overlapsNew_eq_false_iff.mp hsur) htr po hpo
      rcases hc1 with ⟨hb1, hb2⟩
      rcases hc2 with ⟨hb3, hb4⟩
      exact h2 ⟨by omega, by omega⟩
    rcases he1 with rfl | ⟨hm1, hs1, _⟩ <;> rcases he2 with rfl | ⟨hm2, hs2, _⟩
    · exact hne rfl
    · -- e1 is the new entry, e2 an old survivor on the same track
      have hp1bp : Option.some p1 = Option.some bp := hp1.symm.trans hbp
      cases hp1bp
      exact hnewcase e2 hm2 hs2 htrack.symm p2 hp2 hx.1 hx.2
    · have hp2bp : Option.some p2 = Option.some bp := hp2.symm.trans hbp
      cases hp2bp
      exact hnewcase e1 hm1 hs1 htrack p1 hp1 hx.2 hx.1
    · exact hInv e1 hm1 e2 hm2 hne htrack p1 p2 hp1 hp2 x hx

/-- The example patterns of the spec's placement test: A is 4 bars, B is
2 bars, C is 1 bar. -/
def exPatA4 : Pattern := { id := "A", name := "A", channels := [], length := 64 }
def exPatB4 : Pattern := { id := "B", name := "B", channels := [], length := 32 }
def exPatC4 : Pattern := { id := "C", name := "C", channels := [], length := 16 }
def exPats4 : List Pattern := [exPatA4, exPatB4, exPatC4]

/-- C4.  Placing a pattern deletes exactly the entries on the same track
whose bar range intersects the new range, leaves every entry on other
tracks untouched, then inserts the new entry; the no-common-bar invariant
is preserved by every placement and therefore holds after any sequence of
placements from an empty playlist.  The spec's example: placing B (2
bars) at track 0 bar 2 deletes A (4 bars at track 0 bar 0); placing C at
track 1 bar 2 leaves A untouched. -/
theorem handleGridClick_no_overlap_invariant :
    (∀ (pl : PlaylistL) (pats : List Pattern) (brushId : String) (track bar : Nat),
      findPattern pats brushId = Option.none →
      handleGridClick pl pats brushId track bar = pl) ∧
    (∀ (pl : PlaylistL) (pats : List Pattern) (brushId : String) (track bar : Nat)
        (bp : Pattern), findPattern pats brushId = Option.some bp →
      ∀ e, e ∈ handleGridClick pl pats brushId track bar ↔
        e = ((track, bar), brushId) ∨
          (e ∈ pl ∧ overlapsNew pats bp track bar e = false ∧ e.1 ≠ (track, bar))) ∧
    (∀ (pl : PlaylistL) (pats : List Pattern) (brushId : String) (track bar : Nat),
      PlaylistNoOverlap pats pl →
      PlaylistNoOverlap pats (handleGridClick pl pats brushId track bar)) ∧
    (∀ (pats : List Pattern) (cmds : List (String × Nat × Nat)),
      PlaylistNoOverlap pats (cmds.foldl
        (fun pl c => handleGridClick pl pats c.1 c.2.1 c.2.2) [])) ∧
    (handleGridClick [((0, 0), "A")] exPats4 "B" 0 2 = [((0, 2), "B")] ∧
      handleGridClick [((0, 0), "A")] exPats4 "C" 1 2 = [((0, 0), "A"), ((1, 2), "C")]) := by
  refine ⟨?_, ?_, handleGridClick_preserves_no_overlap, ?_, by decide, by decide⟩
  · intro pl pats brushId track bar hbp
    unfold handleGridClick
    rw [hbp]
  · intro pl pats brushId track bar bp hbp e
    exact mem_handleGridClick hbp e
  · intro pats cmds
    induction cmds using List.reverseRecOn with
    | nil =>
      intro e1 he1
      cases he1
    | append_singleton l c ih =>
      rw [List.foldl_append, List.foldl_cons, List.foldl_nil]
      exact handleGridClick_preserves_no_overlap _ pats c.1 c.2.1 c.2.2 ih

/-- Witness for C4 at a concrete input: after the example placement the
new entry is present. -/
theorem handleGridClick_witness :
    ((0, 2), "B") ∈ handleGridClick [((0, 0), "A")] exPats4 "B" 0 2 :=
  (handleGridClick_no_overlap_invariant.2.1 [((0, 0), "A")] exPats4 "B" 0 2 exPatB4 rfl
    ((0, 2), "B")).mpr (Or.inl rfl)

/-! ## C1: song-mode playback resolution -/

lemma checkEntry_some_iff {pl : PlaylistL} {pats : List Pattern} {track cb sb : Nat}
    {r : Pattern × Nat} :
    checkEntry pl pats track cb sb = Option.some r ↔
      r.2 = sb ∧ ActiveMatch pl pats cb track sb r.1 := by
  obtain ⟨r1, r2⟩ := r
  cases hl : plLookup pl track sb with
  | none =>
    have heval : checkEntry pl pats track cb sb = Option.none := by
      simp only [checkEntry, hl]
    rw [heval]
    constructor
    · intro h
      cases h
    · rintro ⟨_, pid, hpid, _⟩
      rw [hl] at hpid
      cases hpid
  | some pid =>
    cases hf : findPattern pats pid with
    | none =>
      have heval : checkEntry pl pats track cb sb = Option.none := by
        simp only [checkEntry, hl, hf]
      rw [heval]
      constructor
      · intro h
        cases h
      · rintro ⟨_, pid2, hpid2, hfind2, _⟩
        rw [hl] at hpid2
        cases hpid2
        rw [hf] at hfind2
        cases hfind2
    | some q =>
      have heval : checkEntry pl pats track cb sb =
          if 16 * cb < 16 * sb + q.length then Option.some (q, sb) else Option.none := by
        simp only [checkEntry, hl, hf]
      rw [heval]
      by_cases hcov : 16 * cb < 16 * sb + q.length
      · rw [if_pos hcov]
        constructor
        · intro h
          cases h
          exact ⟨rfl, pid, hl, hf, hcov⟩
        · rintro ⟨hr2, pid2, hpid2, hfind2, hcov2⟩
          rw [hl] at hpid2
          cases hpid2
          rw [hf] at hfind2
          cases hfind2
          simp only at hr2
          subst hr2
          rfl
      · rw [if_neg hcov]
        constructor
        · intro h
          cases h
        · rintro ⟨_, pid2, hpid2, hfind2, hcov2⟩
          rw [hl] at hpid2
          cases hpid2
          rw [hf] at hfind2
          cases hfind2
          exact absurd hcov2 hcov

lemma checkEntry_none_iff {pl : PlaylistL} {pats : List Pattern} {track cb sb : Nat} :
    checkEntry pl pats track cb sb = Option.none ↔
      ∀ q, ¬ActiveMatch pl pats cb track sb q := by
  constructor
  · intro h q hAM
    have h2 : checkEntry pl pats track cb sb = Option.some (q, sb) :=
      checkEntry_some_iff.mpr ⟨rfl, hAM⟩
    rw [h] at h2
    cases h2
  · intro h
    cases hc : checkEntry pl pats track cb sb with
    | none => rfl
    | some r =>
      obtain ⟨_, hAM⟩ := checkEntry_some_iff.mp hc
      exact absurd hAM (h r.1)

lemma scanBack_some_iff {pl : PlaylistL} {pats : List Pattern} {track cb : Nat}
    (sb0 : Nat) {p : Pattern} {sb : Nat} :
    scanBack pl pats track cb sb0 = Option.some (p, sb) ↔
      sb ≤ sb0 ∧ checkEntry pl pats track cb sb = Option.some (p, sb) ∧
        ∀ sb2, sb < sb2 → sb2 ≤ sb0 → checkEntry pl pats track cb sb2 = Option.none := by
  induction sb0 with
  | zero =>
    simp only [scanBack]
    constructor
    · intro h
      have h0 : sb = 0 := by
        have h2 := checkEntry_some_iff.mp h
        simpa using h2.1
      subst h0
      exact ⟨Nat.le_refl 0, h, fun sb2 h1 h2 => by omega⟩
    · rintro ⟨hle, hc, _⟩
      have h0 : sb = 0 := Nat.le_zero.mp hle
      subst h0
      exact hc
  | succ n ih =>
    cases hc : checkEntry pl pats track cb (n + 1) with
    | some r =>
      obtain ⟨q, sbq⟩ := r
      have hq : sbq = n + 1 := by simpa using (checkEntry_some_iff.mp hc).1
      subst hq
      simp only [scanBack, hc]
      constructor
      · intro h
        cases h
        exact ⟨Nat.le_refl _, hc, fun sb2 h1 h2 => by omega⟩
      · rintro ⟨hle, hcsb, hnone⟩
        by_cases hsb : sb = n + 1
        · subst hsb
          have h2 : Option.some (p, n + 1) = Option.some (q, n + 1) := hcsb.symm.trans hc
          cases h2
          rfl
        · exfalso
          have h3 := hnone (n + 1) (by omega) (Nat.le_refl _)
          rw [h3] at hc
          cases hc
    | none =>
      simp only [scanBack, hc]
      rw [ih]
      constructor
      · rintro ⟨hle, hcsb, hnone⟩
        refine ⟨by omega, hcsb, fun sb2 h1 h2 => ?_⟩
        rcases Nat.lt_or_ge sb2 (n + 1) with h3 | h3
        · exact hnone sb2 h1 (by omega)
        · have h4 : sb2 = n + 1 := by omega
          subst h4
          exact hc
      · rintro ⟨hle, hcsb, hnone⟩
        have hsbn : sb ≤ n := by
          rcases Nat.lt_or_ge sb (n + 1) with h3 | h3
          · omega
          · exfalso
            have h4 : sb = n + 1 := by omega
            subst h4
            rw [hcsb] at hc
            cases hc
        exact ⟨hsbn, hcsb, fun sb2 h1 h2 => hnone sb2 h1 (by omega)⟩

lemma scanBack_none_iff {pl : PlaylistL} {pats : List Pattern} {track cb : Nat} (sb0 : Nat) :
    scanBack pl pats track cb sb0 = Option.none ↔
      ∀ sb, sb ≤ sb0 → checkEntry pl pats track cb sb = Option.none := by
  induction sb0 with
  | zero =>
    simp only [scanBack]
    constructor
    · intro h sb hsb
      have h0 : sb = 0 := Nat.le_zero.mp hsb
      subst h0
      exact h
    · intro h
      exact h 0 (Nat.le_refl 0)
  | succ n ih =>
    cases hc : checkEntry pl pats track cb (n + 1) with
    | some r =>
      simp only [scanBack, hc]
      constructor
      · intro h
        cases h
      · intro h
        rw [h (n + 1) (Nat.le_refl _)] at hc
        cases hc
    | none =>
      simp only [scanBack, hc]
      rw [ih]
      constructor
      · intro h sb hsb
        rcases Nat.lt_or_ge sb (n + 1) with h2 | h2
        · exact h sb (by omega)
        · have h3 : sb = n + 1 := by omega
          subst h3
          exact hc
      · intro h sb hsb
        exact h sb (by omega)

lemma scanTracksFrom_some_iff {pl : PlaylistL} {pats : List Pattern} {cb : Nat}
    (t0 r : Nat) {p : Pattern} {sb t : Nat} :
    scanTracksFrom pl pats cb t0 r = Option.some (p, sb, t) ↔
      t0 ≤ t ∧ t < t0 + r ∧ resolveTrack pl pats cb t = Option.some (p, sb) ∧
        ∀ t2, t0 ≤ t2 → t2 < t → resolveTrack pl pats cb t2 = Option.none := by
  induction r generalizing t0 with
  | zero =>
    simp only [scanTracksFrom]
    constructor
    · intro h
      cases h
    · rintro ⟨h1, h2, _⟩
      omega
  | succ n ih =>
    cases hr : resolveTrack pl pats cb t0 with
    | some q =>
      obtain ⟨qp, qsb⟩ := q
      simp only [scanTracksFrom, hr]
      constructor
      · intro h
        cases h
        exact ⟨Nat.le_refl _, by omega, hr, fun t2 h1 h2 => by omega⟩
      · rintro ⟨h1, h2, hres, hnone⟩
        by_cases ht : t = t0
        · subst ht
          have h3 : Option.some (qp, qsb) = Option.some (p, sb) := hr.symm.trans hres
          cases h3
          rfl
        · exfalso
          have h3 := hnone t0 (Nat.le_refl _) (by omega)
          rw [h3] at hr
          cases hr
    | none =>
      simp only [scanTracksFrom, hr]
      rw [ih (t0 + 1)]
      constructor
      · rintro ⟨h1, h2, hres, hnone⟩
        refine ⟨by omega, by omega, hres, fun t2 ha hb => ?_⟩
        rcases Nat.lt_or_ge t2 (t0 + 1) with h3 | h3
        · have h4 : t2 = t0 := by omega
          subst h4
          exact hr
        · exact hnone t2 h3 hb
      · rintro ⟨h1, h2, hres, hnone⟩
        have ht : t0 + 1 ≤ t := by
          rcases Nat.lt_or_ge t0 t with h3 | h3
          · omega
          · exfalso
            have h4 : t = t0 := by omega
            subst h4
            rw [hres] at hr
            cases hr
        exact ⟨ht, by omega, hres, fun t2 ha hb => hnone t2 (by omega) hb⟩

lemma scanTracksFrom_none_iff {pl : PlaylistL} {pats : List Pattern} {cb : Nat}
    (t0 r : Nat) :
    scanTracksFrom pl pats cb t0 r = Option.none ↔
      ∀ t, t0 ≤ t → t < t0 + r → resolveTrack pl pats cb t = Option.none := by
  induction r generalizing t0 with
  | zero =>
    simp only [scanTracksFrom]
    constructor
    · intro _ t h1 h2
      omega
    · intro _
      trivial
  | succ n ih =>
    cases hr : resolveTrack pl pats cb t0 with
    | some q =>
      obtain ⟨qp, qsb⟩ := q
      simp only [scanTracksFrom, hr]
      constructor
      · intro h
        cases h
      · intro h
        rw [h t0 (Nat.le_refl _) (by omega)] at hr
        cases hr
    | none =>
      simp only [scanTracksFrom, hr]
      rw [ih (t0 + 1)]
      constructor
      · intro h t h1 h2
        rcases Nat.lt_or_ge t (t0 + 1) with h3 | h3
        · have h4 : t = t0 := by omega
          subst h4
          exact hr
        · exact h t h3 (by omega)
      · intro h t h1 h2
        exact h t (by omega) (by omega)

lemma resolveTrack_some_iff {pl : PlaylistL} {pats : List Pattern} {cb t : Nat}
    {p : Pattern} {sb : Nat} :
    resolveTrack pl pats cb t = Option.some (p, sb) ↔
      sb ≤ cb ∧ ActiveMatch pl pats cb t sb p ∧
        ∀ sb2, sb < sb2 → sb2 ≤ cb → ∀ q, ¬ActiveMatch pl pats cb t sb2 q := by
  rw [resolveTrack, scanBack_some_iff]
  constructor
  · rintro ⟨h1, h2, h3⟩
    exact ⟨h1, (checkEntry_some_iff.mp h2).2, fun sb2 ha hb q =>
      checkEntry_none_iff.mp (h3 sb2 ha hb) q⟩
  · rintro ⟨h1, h2, h3⟩
    exact ⟨h1, checkEntry_some_iff.mpr ⟨rfl, h2⟩, fun sb2 ha hb =>
      checkEntry_none_iff.mpr (h3 sb2 ha hb)⟩

lemma resolveTrack_none_iff {pl : PlaylistL} {pats : List Pattern} {cb t : Nat} :
    resolveTrack pl pats cb t = Option.none ↔
      ∀ sb, sb ≤ cb → ∀ q, ¬ActiveMatch pl pats cb t sb q := by
  rw [resolveTrack, scanBack_none_iff]
  constructor
  · intro h sb hsb
    exact checkEntry_none_iff.mp (h sb hsb)
  · intro h sb hsb
    exact checkEntry_none_iff.mpr (h sb hsb)

lemma subHits_name {name : String} {base sp : Rat} {v : Nat} {trig : Trigger}
    (h : trig ∈ subHits name base sp v) : trig.1 = name := by
  unfold subHits at h
  split at h
  · rw [List.mem_singleton] at h
    rw [h]
  · rw [List.mem_map] at h
    obtain ⟨k, _, rfl⟩ := h
    rfl

lemma triggerStepLive_name {sp time : Rat} {v : Nat} {ch : ChannelState} {trig : Trigger}
    (h : trig ∈ triggerStepLive sp time v ch) : trig.1 = ch.sample.name := by
  unfold triggerStepLive at h
  split at h
  · cases h
  · split at h
    · cases h
    · split at h
      · cases h
      · split at h
        · cases h
        · exact subHits_name h

/-- The example patterns/playlist of the spec's song-resolution test: A is
32 steps (2 bars) at track 0 bar 0, B is 16 steps (1 bar) at track 0
bar 4. -/
def exPatA2 : Pattern := { id := "A", name := "A", channels := [], length := 32 }
def exPatB2 : Pattern := { id := "B", name := "B", channels := [], length := 16 }
def exPatterns2 : List Pattern := [exPatA2, exPatB2]
def exPlaylist : PlaylistL := [((0, 0), "A"), ((0, 4), "B")]

/-- C1.  Song-mode resolution: `resolveActivePattern` returns a result
exactly when some track below 32 holds a matching entry (an entry at
`startBar ≤ currentBar` mapping to an existing pattern with
`startBar + length/16 > currentBar`); the result is the matching entry
with the nearest start bar on the first (lowest-index) track that has
one, and every live trigger of a step comes from that one resolved
pattern's channels.  The spec's example playlist resolves bar 1 to A,
bar 3 to nothing, and bar 4 to B. -/
theorem resolveActivePattern_characterization :
    (∀ (pl : PlaylistL) (pats : List Pattern) (bar : Nat) (p : Pattern) (sb t : Nat),
      resolveActivePattern pl pats bar = Option.some (p, sb, t) ↔
        t < 32 ∧ sb ≤ bar ∧ ActiveMatch pl pats bar t sb p ∧
          (∀ sb2, sb < sb2 → sb2 ≤ bar → ∀ q, ¬ActiveMatch pl pats bar t sb2 q) ∧
          (∀ t2, t2 < t → ∀ sb2, sb2 ≤ bar → ∀ q, ¬ActiveMatch pl pats bar t2 sb2 q)) ∧
    (∀ (pl : PlaylistL) (pats : List Pattern) (bar : Nat),
      resolveActivePattern pl pats bar = Option.none ↔
        ∀ t, t < 32 → ∀ sb, sb ≤ bar → ∀ q, ¬ActiveMatch pl pats bar t sb q) ∧
    (∀ (pats : List Pattern) (pl : PlaylistL) (bpm swing : Rat) (step : Nat) (trig : Trigger),
      trig ∈ liveStepTriggers pats pl bpm swing step →
      ∃ p sb t, resolveActivePattern pl pats (step / 16) = Option.some (p, sb, t) ∧
        ∃ ch ∈ p.channels, trig.1 = ch.sample.name) ∧
    (resolveActivePattern exPlaylist exPatterns2 1 = Option.some (exPatA2, 0, 0) ∧
      resolveActivePattern exPlaylist exPatterns2 3 = Option.none ∧
      resolveActivePattern exPlaylist exPatterns2 4 = Option.some (exPatB2, 4, 0)) := by
  refine ⟨?_, ?_, ?_, by decide, by decide, by decide⟩
  · intro pl pats bar p sb t
    rw [resolveActivePattern, scanTracksFrom_some_iff]
    constructor
    · rintro ⟨_, h2, hres, hnone⟩
      obtain ⟨ha, hb, hc⟩ := resolveTrack_some_iff.mp hres
      exact ⟨by omega, ha, hb, hc, fun t2 ht2 sb2 hsb2 q =>
        resolveTrack_none_iff.mp (hnone t2 (Nat.zero_le _) ht2) sb2 hsb2 q⟩
    · rintro ⟨h1, h2, h3, h4, h5⟩
      exact ⟨Nat.zero_le _, by omega, resolveTrack_some_iff.mpr ⟨h2, h3, h4⟩,
        fun t2 _ ht2 => resolveTrack_none_iff.mpr (fun sb2 hsb2 q => h5 t2 ht2 sb2 hsb2 q)⟩
  · intro pl pats bar
    rw [resolveActivePattern, scanTracksFrom_none_iff]
    constructor
    · intro h t ht sb hsb q
      exact resolveTrack_none_iff.mp (h t (Nat.zero_le _) (by omega)) sb hsb q
    · intro h t _ ht
      exact resolveTrack_none_iff.mpr (fun sb hsb q => h t (by omega) sb hsb q)
  · intro pats pl bpm swing step trig htrig
    cases hres : resolveActivePattern pl pats (step / 16) with
    | none =>
      simp only [liveStepTriggers, hres] at htrig
      cases htrig
    | some r =>
      obtain ⟨p, sb, t⟩ := r
      simp only [liveStepTriggers, hres] at htrig
      rw [List.mem_flatMap] at htrig
      obtain ⟨ch, hch, htrig2⟩ := htrig
      exact ⟨p, sb, t, rfl, ch, hch, triggerStepLive_name htrig2⟩

/-- Witness for C1 at a concrete input: resolving bar 4 yields the entry
whose `startBar ≤ 4` covers bar 4 on track 0 — pattern B at bar 4. -/
theorem resolveActivePattern_witness :
    ActiveMatch exPlaylist exPatterns2 4 0 4 exPatB2 :=
  (((resolveActivePattern_characterization.1 exPlaylist exPatterns2 4 exPatB2 4 0).mp
    resolveActivePattern_characterization.2.2.2.2.2).2.2).1

/-! ## C2: the song export against the live song scheduler -/

lemma plLookup_some_mem {pl : PlaylistL} {t sb : Nat} {pid : String}
    (h : plLookup pl t sb = Option.some pid) : ((t, sb), pid) ∈ pl := by
  unfold plLookup at h
  rw [Option.map_eq_some'] at h
  obtain ⟨⟨ek, ev⟩, hfind, he2⟩ := h
  have hp := List.find?_some hfind
  have hkey : ek = (t, sb) := by simpa using hp
  have hev : ev = pid := he2
  have hmem := List.mem_of_find?_eq_some hfind
  rw [hkey, hev] at hmem
  exact hmem

lemma plLookup_eq_some_of_mem {pl : PlaylistL} (hkeys : (pl.map Prod.fst).Nodup)
    {t sb : Nat} {pid : String} (he : ((t, sb), pid) ∈ pl) :
    plLookup pl t sb = Option.some pid := by
  unfold plLookup
  cases hfind : pl.find? (fun e => e.1 = (t, sb)) with
  | none =>
    exfalso
    have h2 := List.find?_eq_none.mp hfind _ he
    simp at h2
  | some e =>
    obtain ⟨ek, ev⟩ := e
    have hp := List.find?_some hfind
    have hkey : ek = (t, sb) := by simpa using hp
    have hmem := List.mem_of_find?_eq_some hfind
    subst hkey
    have heq : ((t, sb), ev) = ((t, sb), pid) :=
      List.inj_on_of_nodup_map hkeys hmem he rfl
    have hev : ev = pid := by simpa using heq
    rw [hev]
    rfl

/-- Membership in the export's trigger list, unfolded to its generating
data: a playlist entry, its pattern, a step-driven channel with a loaded
sample, and a non-zero step inside the pattern length. -/
lemma mem_exportSongTriggers_iff {pats : List Pattern} {pl : PlaylistL} {bpm swing : Rat}
    {trig : Trigger} :
    trig ∈ exportSongTriggers pats pl bpm swing ↔
      ∃ e ∈ pl, ∃ p, findPattern pats e.2 = Option.some p ∧
        ∃ ch ∈ p.channels, ch.isAudioClipChannel = false ∧ ch.sample.url ≠ "" ∧
          ∃ i v, ch.steps[i]? = Option.some v ∧ i < p.length ∧ v ≠ 0 ∧
            trig ∈ subHits ch.sample.name
              ((e.1.2 : Rat) * secondsPerBar bpm + (i : Rat) * secondsPer16th bpm +
                (if 0 < swing ∧ (e.1.2 * 16 + i) % 2 = 1 then
                  swing * (secondsPer16th bpm / 2) else 0))
              (secondsPer16th bpm) v := by
  simp only [exportSongTriggers]
  rw [List.mem_flatMap]
  constructor
  · rintro ⟨e, he, htrig⟩
    refine ⟨e, he, ?_⟩
    cases hf : findPattern pats e.2 with
    | none =>
      simp only [hf] at htrig
      cases htrig
    | some p =>
      simp only [hf] at htrig
      rw [List.mem_flatMap] at htrig
      obtain ⟨ch, hch, h2⟩ := htrig
      refine ⟨p, rfl, ch, hch, ?_⟩
      split at h2
      · cases h2
      · split at h2
        · cases h2
        · rename_i hclip hurl
          rw [List.mem_flatMap] at h2
          obtain ⟨⟨i, v⟩, hiv, h3⟩ := h2
          split at h3
          · cases h3
          · rename_i hguard
            push_neg at hguard
            refine ⟨by simpa using hclip, hurl, i, v,
              List.mk_mem_enum_iff_getElem?.mp hiv, by omega, hguard.2, h3⟩
  · rintro ⟨e, he, p, hf, ch, hch, hclip, hurl, i, v, hiv, hlen, hv, htr⟩
    refine ⟨e, he, ?_⟩
    simp only [hf]
    rw [List.mem_flatMap]
    refine ⟨ch, hch, ?_⟩
    rw [if_neg (by simp [hclip]), if_neg hurl, List.mem_flatMap]
    refine ⟨(i, v), List.mk_mem_enum_iff_getElem?.mpr hiv, ?_⟩
    rw [if_neg (by simp only [not_or, not_le]; exact ⟨hlen, hv⟩)]
    exact htr

/-- Membership in the live per-step trigger list, unfolded: a resolved
pattern and a step-driven channel with a non-zero wrapped step value. -/
lemma mem_liveStepTriggers_iff {pats : List Pattern} {pl : PlaylistL} {bpm swing : Rat}
    {step : Nat} {trig : Trigger} :
    trig ∈ liveStepTriggers pats pl bpm swing step ↔
      ∃ p sb t, resolveActivePattern pl pats (step / 16) = Option.some (p, sb, t) ∧
        ∃ ch ∈ p.channels, ch.isAudioClipChannel = false ∧ ch.notes = [] ∧
          ch.sample.url ≠ "" ∧
          ch.steps.getD (((step / 16 - sb) * 16 + step % 16) % ch.steps.length) 0 ≠ 0 ∧
          trig ∈ subHits ch.sample.name (liveStepTime bpm swing step) (secondsPer16th bpm)
            (ch.steps.getD (((step / 16 - sb) * 16 + step % 16) % ch.steps.length) 0) := by
  cases hres : resolveActivePattern pl pats (step / 16) with
  | none =>
    simp only [liveStepTriggers, hres]
    constructor
    · intro h
      cases h
    · rintro ⟨p, sb, t, heq, _⟩
      cases heq
  | some r =>
    obtain ⟨p, sb, t⟩ := r
    simp only [liveStepTriggers, hres]
    rw [List.mem_flatMap]
    constructor
    · rintro ⟨ch, hch, htr⟩
      refine ⟨p, sb, t, rfl, ch, hch, ?_⟩
      unfold triggerStepLive at htr
      split at htr
      · cases htr
      · split at htr
        · cases htr
        · split at htr
          · cases htr
          · split at htr
            · cases htr
            · rename_i hclip hnotes hval hurl
              refine ⟨by simpa using hclip, by simpa using hnotes, hurl, hval, htr⟩
    · rintro ⟨p2, sb2, t2, heq, ch, hch, hclip, hnotes, hurl, hv, htr⟩
      cases heq
      refine ⟨ch, hch, ?_⟩
      unfold triggerStepLive
      rw [if_neg (by simp [hclip]), if_neg (by simp [hnotes]), if_neg hv, if_neg hurl]
      exact htr

/-- The odd-step delay applied by the export equals the live transport's
swing delay whenever the swing value is `0` or above the `0.01`
threshold. -/
lemma exportDelay_eq_liveDelay (swing sp : Rat) (g : Nat)
    (hs : swing = 0 ∨ 1/100 < swing) :
    (if 0 < swing ∧ g % 2 = 1 then swing * (sp / 2) else 0) = liveSwingDelay swing sp g := by
  unfold liveSwingDelay liveEffectiveSwing
  rcases hs with rfl | hgt
  · by_cases hodd : g % 2 = 1
    · rw [if_neg (by simp), if_pos hodd, if_neg (by norm_num)]
      ring
    · rw [if_neg (by simp [hodd]), if_neg hodd]
  · have hpos : (0 : Rat) < swing := lt_trans (by norm_num) hgt
    by_cases hodd : g % 2 = 1
    · rw [if_pos ⟨hpos, hodd⟩, if_pos hodd, if_pos hgt]
    · rw [if_neg (by simp [hodd]), if_neg hodd]

/-- The export's absolute base time for step `i` of a placement at bar
`b` equals the live transport's time for global step `16 b + i`. -/
lemma export_base_eq_live (bpm swing : Rat) (b i : Nat)
    (hs : swing = 0 ∨ 1/100 < swing) :
    (b : Rat) * secondsPerBar bpm + (i : Rat) * secondsPer16th bpm +
      (if 0 < swing ∧ (b * 16 + i) % 2 = 1 then swing * (secondsPer16th bpm / 2) else 0) =
    liveStepTime bpm swing (16 * b + i) := by
  have hb : b * 16 + i = 16 * b + i := by ring
  rw [hb, exportDelay_eq_liveDelay swing (secondsPer16th bpm) (16 * b + i) hs]
  unfold liveStepTime secondsPerBar secondsPer16th
  push_cast
  ring

/-- Pairwise disjointness of the playlist's (scaled) bar ranges, for
entries whose pattern ids resolve. -/
def PlacementsDisjoint (pats : List Pattern) (pl : PlaylistL) : Prop :=
  ∀ e1 ∈ pl, ∀ e2 ∈ pl, e1.1 ≠ e2.1 →
    ∀ p1 p2, findPattern pats e1.2 = Option.some p1 →
      findPattern pats e2.2 = Option.some p2 →
      16 * e1.1.2 + p1.length ≤ 16 * e2.1.2 ∨ 16 * e2.1.2 + p2.length ≤ 16 * e1.1.2

/-- When the playlist's placements are pairwise disjoint, the backward
scan resolves a bar covered by an entry to exactly that entry. -/
lemma resolve_of_unique_cover {pats : List Pattern} {pl : PlaylistL}
    (hkeys : (pl.map Prod.fst).Nodup)
    (htracks : ∀ e ∈ pl, e.1.1 < 32)
    (hno : PlacementsDisjoint pats pl)
    {e : (Nat × Nat) × String} (he : e ∈ pl) {p : Pattern}
    (hf : findPattern pats e.2 = Option.some p)
    (bar : Nat) (hcov1 : e.1.2 ≤ bar) (hcov2 : 16 * bar < 16 * e.1.2 + p.length) :
    resolveActivePattern pl pats bar = Option.some (p, e.1.2, e.1.1) := by
  obtain ⟨⟨t, b⟩, pid⟩ := e
  simp only at hcov1 hcov2 hf ⊢
  have huniq : ∀ t2 sb2 q, sb2 ≤ bar → (t2, sb2) ≠ (t, b) →
      ActiveMatch pl pats bar t2 sb2 q → False := by
    intro t2 sb2 q hsb2 hne hAM
    obtain ⟨pid2, hlook2, hfind2, hcovq⟩ := hAM
    have hmem2 := plLookup_some_mem hlook2
    have hd := hno ((t, b), pid) he ((t2, sb2), pid2) hmem2
      (fun h => hne (by simpa using h.symm)) p q hf hfind2
    dsimp only at hd
    omega
  rw [resolveActivePattern, scanTracksFrom_some_iff]
  refine ⟨Nat.zero_le _, ?_, ?_, ?_⟩
  · have h32 := htracks ((t, b), pid) he
    dsimp only at h32
    omega
  · rw [resolveTrack_some_iff]
    refine ⟨hcov1, ⟨pid, plLookup_eq_some_of_mem hkeys he, hf, hcov2⟩, ?_⟩
    intro sb2 h1 h2 q hAM
    have hne : (t, sb2) ≠ (t, b) := by
      intro h
      have hsb : sb2 = b := congrArg Prod.snd h
      omega
    exact huniq t sb2 q h2 hne hAM
  · intro t2 _ ht2
    rw [resolveTrack_none_iff]
    intro sb2 hsb2 q hAM
    have hne : (t2, sb2) ≠ (t, b) := by
      intro h
      have ht : t2 = t := congrArg Prod.fst h
      omega
    exact huniq t2 sb2 q hsb2 hne hAM

/-- Two one-bar, one-channel patterns placed at bar 0 on two different
tracks: the live scheduler plays only the lowest track, the export
renders both. -/
def exChanSA : ChannelState :=
  { id := "ca", name := "ca", sample := { name := "a", url := "u" },
    steps := 1 :: List.replicate 15 0, notes := [],
    volume := 0, pan := 0, cutItself := false, eq := exEQ, effects := [],
    isAudioClipChannel := false, isMuted := false, isSoloed := false }

def exChanSB : ChannelState :=
  { id := "cb", name := "cb", sample := { name := "b", url := "u" },
    steps := 1 :: List.replicate 15 0, notes := [],
    volume := 0, pan := 0, cutItself := false, eq := exEQ, effects := [],
    isAudioClipChannel := false, isMuted := false, isSoloed := false }

def exPatSA : Pattern := { id := "A", name := "A", channels := [exChanSA], length := 16 }
def exPatSB : Pattern := { id := "B", name := "B", channels := [exChanSB], length := 16 }
def exPatsS : List Pattern := [exPatSA, exPatSB]

/-- Both placements cover bar 0, on tracks 0 and 1. -/
def exPlS : PlaylistL := [((0, 0), "A"), ((1, 0), "B")]

/-- Counterexample to C2.  With patterns `A` (track 0) and `B` (track 1)
both placed at bar 0, the export renders the trigger `("b", 0)` from
pattern `B`, but the live scheduler resolves every step of bar 0 to the
lower track's pattern `A` (whose only sample is `"a"`) and plays nothing
after bar 0, so no live step ever dispatches `("b", 0)`: the export is
not the union of the live per-step trigger sets. -/
theorem exportSong_live_equiv_cex :
    ¬ (∀ trig : Trigger, trig ∈ exportSongTriggers exPatsS exPlS 120 0 ↔
        ∃ s, s < 1152 ∧ trig ∈ liveStepTriggers exPatsS exPlS 120 0 s) := by
  intro hiff
  have hexp : (("b", (0 : Rat)) : Trigger) ∈ exportSongTriggers exPatsS exPlS 120 0 := by
    rw [mem_exportSongTriggers_iff]
    refine ⟨((1, 0), "B"), by decide, exPatSB, rfl, exChanSB,
      List.mem_singleton.mpr rfl, rfl, by decide, 0, 1, rfl, by decide, by decide, ?_⟩
    rw [subHits, if_pos rfl, List.mem_singleton]
    refine Prod.ext rfl ?_
    norm_num [secondsPerBar, secondsPer16th]
  obtain ⟨s, _, hlive⟩ := (hiff _).mp hexp
  rw [mem_liveStepTriggers_iff] at hlive
  obtain ⟨p, sb, t, hres, ch, hch, hclip, hnotes, hurl, hv, htr⟩ := hlive
  rw [resolveActivePattern, scanTracksFrom_some_iff] at hres
  obtain ⟨-, -, hrt, hprev⟩ := hres
  rw [resolveTrack_some_iff] at hrt
  obtain ⟨hsb, hAM, -⟩ := hrt
  obtain ⟨pid, hlook, hf, hcov⟩ := hAM
  have hmem := plLookup_some_mem hlook
  simp only [exPlS, List.mem_cons, List.not_mem_nil, or_false, Prod.mk.injEq] at hmem
  rcases hmem with ⟨⟨ht, hsb0⟩, hpid⟩ | ⟨⟨ht, hsb0⟩, hpid⟩
  · subst ht
    subst hsb0
    subst hpid
    have hfA : findPattern exPatsS "A" = Option.some exPatSA := rfl
    rw [hfA] at hf
    injection hf with hp
    subst hp
    have hchA : exPatSA.channels = [exChanSA] := rfl
    rw [hchA, List.mem_singleton] at hch
    subst hch
    have hname := subHits_name htr
    exact absurd hname (by decide)
  · subst ht
    subst hsb0
    subst hpid
    have hfB : findPattern exPatsS "B" = Option.some exPatSB := rfl
    rw [hfB] at hf
    injection hf with hp
    subst hp
    have hlenB : exPatSB.length = 16 := rfl
    rw [hlenB] at hcov
    have h0 : resolveTrack exPlS exPatsS (s / 16) 0 = Option.none :=
      hprev 0 (Nat.le_refl 0) (by omega)
    have hdiv : s / 16 = 0 := by omega
    rw [hdiv] at h0
    have hcomp : resolveTrack exPlS exPatsS 0 0 = Option.some (exPatSA, 0) := rfl
    rw [hcomp] at h0
    cases h0

/-- C2.  Amended refinement: when every playlist placement sits on a valid
track, fits inside the 72-bar song, has a pattern length that is a whole
number of bars not exceeding its channels' step arrays, has no piano-roll
notes on its channels, and no two placements' bar ranges overlap (on any
pair of tracks), and the swing value is either `0` or above the live
`0.01` threshold, then the export's trigger multiset is exactly the union
over the song's 1152 global steps of the live scheduler's per-step
triggers: each path plays the same samples at the same absolute times
with the same sub-hit expansion.  (Without the no-overlap hypothesis the
export double-schedules, see the counterexample; it also ignores the
live path's `notes` suppression and uses the `swing > 0` threshold in
place of `swing > 0.01`.) -/
theorem exportSong_matches_live_under_nonoverlap
    (pats : List Pattern) (pl : PlaylistL) (bpm swing : Rat)
    (hs : swing = 0 ∨ 1/100 < swing)
    (hkeys : (pl.map Prod.fst).Nodup)
    (hwf : ∀ e ∈ pl, e.1.1 < 32 ∧ ∀ p, findPattern pats e.2 = Option.some p →
      16 * e.1.2 + p.length ≤ 1152 ∧ 16 ∣ p.length ∧
      ∀ ch ∈ p.channels, ch.notes = [] ∧ p.length ≤ ch.steps.length)
    (hno : PlacementsDisjoint pats pl) :
    ∀ trig : Trigger, trig ∈ exportSongTriggers pats pl bpm swing ↔
      ∃ s, s < 1152 ∧ trig ∈ liveStepTriggers pats pl bpm swing s := by
  intro trig
  constructor
  · intro h
    rw [mem_exportSongTriggers_iff] at h
    obtain ⟨e, he, p, hf, ch, hch, hclip, hurl, i, v, hiv, hlen, hv, htr⟩ := h
    obtain ⟨hbound, hdvd, hchans⟩ := (hwf e he).2 p hf
    obtain ⟨hnotes, hsteps⟩ := hchans ch hch
    refine ⟨16 * e.1.2 + i, by omega, ?_⟩
    rw [mem_liveStepTriggers_iff]
    have hres : resolveActivePattern pl pats ((16 * e.1.2 + i) / 16) =
        Option.some (p, e.1.2, e.1.1) := by
      refine resolve_of_unique_cover hkeys (fun e2 he2 => (hwf e2 he2).1) hno he hf _ ?_ ?_
      · omega
      · omega
    have hstep : ((16 * e.1.2 + i) / 16 - e.1.2) * 16 + (16 * e.1.2 + i) % 16 = i := by
      omega
    have hlt : i < ch.steps.length := lt_of_lt_of_le hlen hsteps
    have hgd : ch.steps.getD ((((16 * e.1.2 + i) / 16 - e.1.2) * 16 +
        (16 * e.1.2 + i) % 16) % ch.steps.length) 0 = v := by
      rw [hstep, Nat.mod_eq_of_lt hlt, List.getD_eq_getElem?_getD, hiv]
      rfl
    refine ⟨p, e.1.2, e.1.1, hres, ch, hch, hclip, hnotes, hurl, ?_, ?_⟩
    · rw [hgd]
      exact hv
    · rw [hgd]
      rw [export_base_eq_live bpm swing e.1.2 i hs] at htr
      exact htr
  · rintro ⟨s, hs1152, h⟩
    rw [mem_liveStepTriggers_iff] at h
    obtain ⟨p, sb, t, hres, ch, hch, hclip, hnotes, hurl, hvne, htr⟩ := h
    rw [resolveActivePattern, scanTracksFrom_some_iff] at hres
    obtain ⟨-, -, hrt, -⟩ := hres
    rw [resolveTrack_some_iff] at hrt
    obtain ⟨hsb, hAM, -⟩ := hrt
    obtain ⟨pid, hlook, hf, hcov⟩ := hAM
    have he : ((t, sb), pid) ∈ pl := plLookup_some_mem hlook
    obtain ⟨hbound, hdvd, hchans⟩ := (hwf _ he).2 p hf
    obtain ⟨-, hsteps⟩ := hchans ch hch
    obtain ⟨k, hk⟩ := hdvd
    have hilen : s - 16 * sb < p.length := by omega
    have hlt : s - 16 * sb < ch.steps.length := lt_of_lt_of_le hilen hsteps
    have hstep : (s / 16 - sb) * 16 + s % 16 = s - 16 * sb := by omega
    have hsome := List.getElem?_eq_getElem hlt
    have hgd : ch.steps.getD (((s / 16 - sb) * 16 + s % 16) % ch.steps.length) 0 =
        ch.steps.getD (s - 16 * sb) 0 := by
      rw [hstep, Nat.mod_eq_of_lt hlt]
    rw [mem_exportSongTriggers_iff]
    refine ⟨((t, sb), pid), he, p, hf, ch, hch, hclip, hurl, s - 16 * sb,
      ch.steps.getD (s - 16 * sb) 0, ?_, hilen, ?_, ?_⟩
    · rw [List.getD_eq_getElem?_getD, hsome]
      rfl
    · rw [← hgd]
      exact hvne
    · have hseq : 16 * sb + (s - 16 * sb) = s := by omega
      have hbase := export_base_eq_live bpm swing sb (s - 16 * sb) hs
      rw [hseq] at hbase
      dsimp only
      rw [hbase, ← hgd]
      exact htr

/-- Witness for the amended C2 at a concrete input: a single placement of
pattern `A` at bar 0 of track 0 satisfies every hypothesis, so the
equivalence holds for the trigger `("a", 0)`. -/
theorem exportSong_matches_live_witness :
    (("a", (0 : Rat)) : Trigger) ∈ exportSongTriggers exPatsS [((0, 0), "A")] 120 0 ↔
      ∃ s, s < 1152 ∧
        (("a", (0 : Rat)) : Trigger) ∈ liveStepTriggers exPatsS [((0, 0), "A")] 120 0 s := by
  refine exportSong_matches_live_under_nonoverlap exPatsS [((0, 0), "A")] 120 0
    (Or.inl rfl) (by decide) ?_ ?_ (("a", (0 : Rat)) : Trigger)
  · intro e he
    rw [List.mem_singleton] at he
    subst he
    refine ⟨by decide, ?_⟩
    intro p hp
    have hfA : findPattern exPatsS "A" = Option.some exPatSA := rfl
    rw [hfA] at hp
    injection hp with hp2
    subst hp2
    refine ⟨by decide, by decide, ?_⟩
    intro ch hch
    have hchA : exPatSA.channels = [exChanSA] := rfl
    rw [hchA, List.mem_singleton] at hch
    subst hch
    exact ⟨rfl, by decide⟩
  · intro e1 h1 e2 h2 hne
    rw [List.mem_singleton] at h1 h2
    subst h1
    subst h2
    exact absurd rfl hne

end FlowBeat
